import Mathlib

/-!
# COON codec: verification of the specification against the repository

Shallow embedding of the COON repository's core code:

* the abbreviation tables of `src/docs/lib/coon-browser.ts` and
  `src/benchmarks/src/constants.ts` (association lists in source order);
* the regex-based `compressDart` pipeline of `src/docs/lib/coon-browser.ts`
  (modelled replacement-by-replacement on `List Char`);
* the syntax checker `isValidCoonSyntax` of the benchmark normalizer;
* the compressor singleton of the benchmark generator (`getCompressor`);
* the encoder/decoder of the compact grammar, which is not part of the
  source tree (it lives in the external SDK packages): those definitions are
  modelled from the spec and are marked as such in their doc comments.

JS semantics notes: JS object literals with distinct keys are modelled as
association lists in insertion order, `Object.fromEntries` keeps the last
entry for a duplicate key (modelled by `objLookup`, which scans from the
end), and `Array.prototype.sort` is stable (sorted table orders are spelled
out and checked against the source order by a permutation lemma).
-/

namespace COON

/-! ## Characters and small helpers -/

/-- The double-quote character. -/
def qc : Char := Char.ofNat 34

/-- The backslash character. -/
def bslash : Char := Char.ofNat 92

/-- The opening-brace character. -/
def obr : Char := Char.ofNat 123

/-- The closing-brace character. -/
def cbr : Char := Char.ofNat 125

/-- JS `\s` / `trim` whitespace (the ASCII part, which is all the repository's
inputs use): tab, LF, VT, FF, CR, space. -/
def isJsWs (c : Char) : Bool :=
  c = ' ' || c = Char.ofNat 9 || c = Char.ofNat 10 || c = Char.ofNat 11 ||
  c = Char.ofNat 12 || c = Char.ofNat 13

/-- JS regex `\w`: ASCII letters, digits and underscore. -/
def isWordChar (c : Char) : Bool :=
  c.isAlphanum || c = '_'

/-- JS `String.prototype.trim` on a list of characters. -/
def jsTrim (l : List Char) : List Char :=
  ((l.dropWhile isJsWs).reverse.dropWhile isJsWs).reverse

/-- Split a character list at every occurrence of a separator character,
like JS `String.prototype.split` with a one-character separator. -/
def splitOnChar (sep : Char) : List Char → List (List Char)
  | [] => [[]]
  | c :: cs =>
    let rest := splitOnChar sep cs
    if c = sep then [] :: rest
    else match rest with
      | [] => [[c]]
      | r :: rs => (c :: r) :: rs

/-- Join character lists with a separator character (JS `Array.prototype.join`). -/
def joinWithChar (sep : Char) : List (List Char) → List Char
  | [] => []
  | [l] => l
  | l :: ls => l ++ sep :: joinWithChar sep ls

/-- Distinctness of a list of strings, used to state the symbol-table
injectivity invariants. -/
def allDistinct : List String → Bool
  | [] => true
  | x :: xs => !(xs.contains x) && allDistinct xs

/-! ## Symbol tables shipped in the repository

`src/docs/lib/coon-browser.ts` declares the long-form → short-form tables as
JS object literals; `src/benchmarks/src/constants.ts` declares the
short-form → long-form table `WIDGET_ABBREVIATIONS` and derives
`REVERSE_WIDGET_MAP` from it with `Object.fromEntries`. All are modelled as
association lists in source order. -/

/-- `DART_WIDGETS` of `src/docs/lib/coon-browser.ts` (long form, short form). -/
def DART_WIDGETS : List (String × String) :=
  [("Scaffold", "S"), ("Column", "C"), ("Row", "R"), ("SafeArea", "A"),
   ("Padding", "P"), ("Text", "T"), ("AppBar", "B"), ("SizedBox", "Z"),
   ("TextField", "F"), ("ElevatedButton", "E"), ("TextStyle", "Y"),
   ("InputDecoration", "D"), ("OutlineInputBorder", "O"),
   ("TextEditingController", "X"), ("Container", "K"), ("Center", "N"),
   ("Expanded", "Ex"), ("ListView", "L"), ("GridView", "G"), ("Stack", "St"),
   ("Positioned", "Ps"), ("Card", "Cd"), ("IconButton", "Ib"), ("Icon", "Ic"),
   ("FloatingActionButton", "Fb"), ("CircularProgressIndicator", "Cp"),
   ("LinearProgressIndicator", "Lp"), ("Drawer", "Dr"),
   ("BottomNavigationBar", "Bn"), ("TabBar", "Tb"), ("TabBarView", "Tv"),
   ("Image", "Im"), ("Divider", "Dv"), ("Flexible", "Fl"), ("Align", "Al"),
   ("CustomScrollView", "Cv"), ("SingleChildScrollView", "Sv"),
   ("TextFormField", "Tf"), ("TextButton", "Bt")]

/-- `DART_PROPERTIES` of `src/docs/lib/coon-browser.ts`. -/
def DART_PROPERTIES : List (String × String) :=
  [("appBar:", "a:"), ("body:", "b:"), ("child:", "c:"), ("children:", "h:"),
   ("title:", "t:"), ("controller:", "r:"), ("padding:", "p:"),
   ("onPressed:", "o:"), ("style:", "s:"), ("fontSize:", "z:"),
   ("fontWeight:", "w:"), ("color:", "l:"), ("decoration:", "d:"),
   ("labelText:", "L:"), ("hintText:", "H:"), ("border:", "B:"),
   ("height:", "e:"), ("width:", "W:"), ("obscureText:", "x:"),
   ("centerTitle:", "T:"), ("mainAxisAlignment:", "A:"),
   ("crossAxisAlignment:", "X:"), ("minimumSize:", "M:"), ("margin:", "m:"),
   ("alignment:", "n:"), ("backgroundColor:", "bg:"), ("onChanged:", "oc:"),
   ("builder:", "bl:"), ("mainAxisSize:", "ms:"), ("crossAxisSize:", "xs:")]

/-- `DART_KEYWORDS` of `src/docs/lib/coon-browser.ts`. -/
def DART_KEYWORDS : List (String × String) :=
  [("class", "c:"), ("final", "f:"), ("extends", "<"), ("import", "im:"),
   ("return", "ret"), ("async", "asy"), ("await", "awt"), ("const", "cn:"),
   ("static", "st:"), ("void", "v:"), ("override", "ov:"), ("implements", ">"),
   ("with", "+"), ("Widget", "W"), ("BuildContext", "ctx"), ("true", "1"),
   ("false", "0"), ("null", "_")]

/-- `REACT_HOOKS` of `src/docs/lib/coon-browser.ts`. -/
def REACT_HOOKS : List (String × String) :=
  [("useState", "us"), ("useEffect", "ue"), ("useContext", "uc"),
   ("useReducer", "ur"), ("useCallback", "ucb"), ("useMemo", "um"),
   ("useRef", "urf"), ("useImperativeHandle", "uih"),
   ("useLayoutEffect", "ule"), ("useDebugValue", "udv")]

/-- `JSX_ELEMENTS` of `src/docs/lib/coon-browser.ts`. -/
def JSX_ELEMENTS : List (String × String) :=
  [("button", "B"), ("input", "I"), ("form", "F"), ("label", "L"),
   ("textarea", "TA"), ("select", "SL"), ("option", "O")]

/-- `REACT_COMPONENTS` of `src/docs/lib/coon-browser.ts`. -/
def REACT_COMPONENTS : List (String × String) :=
  [("Fragment", "Fr"), ("StrictMode", "SM"), ("Suspense", "Su")]

/-- `REACT_PROPERTIES` of `src/docs/lib/coon-browser.ts`. -/
def REACT_PROPERTIES : List (String × String) :=
  [("className", "cn"), ("onClick", "oc"), ("onChange", "och"),
   ("onSubmit", "os"), ("onFocus", "of"), ("onBlur", "ob"),
   ("onKeyPress", "okp"), ("onKeyDown", "okd"), ("onKeyUp", "oku"),
   ("onMouseEnter", "ome"), ("onMouseLeave", "oml"), ("children", "ch"),
   ("style", "st"), ("defaultValue", "dv"), ("checked", "chk"),
   ("disabled", "dis"), ("readOnly", "ro"), ("required", "req"),
   ("placeholder", "ph"), ("htmlFor", "hf"), ("tabIndex", "ti")]

/-- `JS_KEYWORDS` of `src/docs/lib/coon-browser.ts`. -/
def JS_KEYWORDS : List (String × String) :=
  [("function", "fn:"), ("const", "cn:"), ("return", "ret"),
   ("export", "exp"), ("import", "imp"), ("default", "def"),
   ("async", "asn:"), ("await", "awt"), ("true", "1"), ("false", "0"),
   ("null", "nul"), ("undefined", "udf")]

/-- `WIDGET_ABBREVIATIONS` of `src/benchmarks/src/constants.ts`
(short form, long form), in source order. -/
def WIDGET_ABBREVIATIONS : List (String × String) :=
  [("S", "Scaffold"), ("C", "Column"), ("R", "Row"), ("T", "Text"),
   ("K", "Container"), ("N", "Center"), ("P", "Padding"), ("B", "AppBar"),
   ("E", "ElevatedButton"), ("F", "TextField"), ("L", "ListView"),
   ("Z", "SizedBox"), ("Ic", "Icon"), ("Cd", "Card"), ("St", "Stack"),
   ("Wr", "Wrap"), ("Sw", "SingleChildScrollView"), ("Gi", "GestureDetector"),
   ("In", "InkWell"), ("An", "AnimatedContainer"), ("Tr", "Transform"),
   ("Op", "Opacity"), ("Cl", "ClipRRect"), ("Im", "Image"),
   ("Ci", "CircleAvatar"), ("Li", "ListTile"), ("Ds", "Dismissible"),
   ("Dr", "Drawer"), ("Tb", "TabBar"), ("Tv", "TabBarView"),
   ("Fa", "FloatingActionButton"), ("Ib", "IconButton"), ("Tb2", "TextButton"),
   ("Ob", "OutlinedButton"), ("Dd", "DropdownButton"), ("Sw2", "Switch"),
   ("Cb", "Checkbox"), ("Rd", "Radio"), ("Sl", "Slider"),
   ("Pr", "CircularProgressIndicator"), ("Pr2", "LinearProgressIndicator"),
   ("Dv", "Divider"), ("Sp", "Spacer"), ("Ex", "Expanded"), ("Fl", "Flexible"),
   ("Al", "Align"), ("Ps", "Positioned"), ("As", "AspectRatio"),
   ("Fr", "FractionallySizedBox"), ("Cn", "ConstrainedBox"), ("Sz", "SizedBox"),
   ("Ls", "LimitedBox"), ("Ov", "OverflowBox"), ("Gv", "GridView"),
   ("Pb", "PageView"), ("Nv", "Navigator"), ("Rt", "Route"),
   ("Mr", "MaterialPageRoute"), ("Al2", "AlertDialog"), ("Sd", "SimpleDialog"),
   ("Bs", "BottomSheet"), ("Sb", "SnackBar"), ("Pp", "PopupMenuButton"),
   ("Mn", "Menu")]

/-- JS object lookup for an association list built by an object literal or
`Object.fromEntries`: a later entry for the same key overwrites an earlier
one, so the scan runs from the end. -/
def objLookup (l : List (String × String)) (k : String) : Option String :=
  (l.reverse.find? (fun p => p.1 == k)).map (fun p => p.2)

/-- `REVERSE_WIDGET_MAP` of `src/benchmarks/src/constants.ts`:
`Object.fromEntries(Object.entries(WIDGET_ABBREVIATIONS).map(([k, v]) => [v, k]))`. -/
def REVERSE_WIDGET_MAP : List (String × String) :=
  WIDGET_ABBREVIATIONS.map (fun p => (p.2, p.1))

/-- One long form of `WIDGET_ABBREVIATIONS` survives the round trip through
`REVERSE_WIDGET_MAP`: the reverse map is defined on it, and mapping its short
code forward again gives the long form back. -/
def widgetRoundOk (p : String × String) : Bool :=
  match objLookup REVERSE_WIDGET_MAP p.2 with
  | some k =>
    match objLookup WIDGET_ABBREVIATIONS k with
    | some v => v == p.2
    | none => false
  | none => false

/-- Dropping a while-prefix never lengthens a list. -/
theorem len_dropWhile_le (p : Char → Bool) (l : List Char) :
    (l.dropWhile p).length ≤ l.length :=
  (List.dropWhile_sublist p).length_le

/-! ## The regex replacement pipeline of `compressDart`

`compressDart` in `src/docs/lib/coon-browser.ts` is a chain of JS
`String.replace` calls with global regexes. Each replacement form is modelled
as a left-to-right scan over the source characters; as in JS, matches are
found against the source string (the scan continues after the consumed
source text, and the word-boundary context is the source character before
the match). -/

/-- Word-boundary check against the source character before a match
(`none` = start of string). -/
def prevOk : Option Char → Bool
  | none => true
  | some c => !isWordChar c

/-- Word-boundary check against the source characters after a match. -/
def nextOk (l : List Char) : Bool :=
  match l.head? with
  | none => true
  | some c => !isWordChar c

/-- Global replace of the word-bounded pattern `p0 :: ps` (a regex
`\bpat\b` whose characters are all word characters) by `rep`, scanning with
the previous source character as boundary context. The scan is structurally
recursive on a fuel counter; every step consumes at least one source
character, so fuel equal to the input length makes the fuel bound
unreachable. -/
def replaceWB (p0 : Char) (ps : List Char) (rep : List Char) :
    Nat → Option Char → List Char → List Char
  | 0, _, l => l
  | _ + 1, _, [] => []
  | fuel + 1, prev, c :: cs =>
    if ((p0 :: ps).isPrefixOf (c :: cs) && prevOk prev &&
        nextOk ((c :: cs).drop (p0 :: ps).length)) = true then
      rep ++ replaceWB p0 ps rep fuel (some (ps.getLastD p0)) ((c :: cs).drop (p0 :: ps).length)
    else c :: replaceWB p0 ps rep fuel (some c) cs

/-- Global replace of the plain literal pattern `p0 :: ps` by `rep`
(a regex of escaped literal characters, no boundary assertions), fuelled
like `replaceWB`. -/
def replacePlain (p0 : Char) (ps : List Char) (rep : List Char) :
    Nat → List Char → List Char
  | 0, l => l
  | _ + 1, [] => []
  | fuel + 1, c :: cs =>
    if (p0 :: ps).isPrefixOf (c :: cs) then
      rep ++ replacePlain p0 ps rep fuel ((c :: cs).drop (p0 :: ps).length)
    else c :: replacePlain p0 ps rep fuel cs

/-- `String.replace` with pattern `\bpat\b`: entry point building the scan. -/
def replaceWordBounded (pat rep : String) (l : List Char) : List Char :=
  match pat.data with
  | [] => l
  | p0 :: ps => replaceWB p0 ps rep.data l.length none l

/-- `String.replace` with an escaped-literal global regex. -/
def replaceAllStr (pat rep : String) (l : List Char) : List Char :=
  match pat.data with
  | [] => l
  | p0 :: ps => replacePlain p0 ps rep.data l.length l

/-- `String.replace(/\s*x\s*/g, x)` for a single non-whitespace character
`x`: a match at a position exists iff skipping whitespace from it lands on
`x`; the match then greedily takes the surrounding whitespace. Fuelled like
`replaceWB`. -/
def collapseAroundGo (x : Char) : Nat → List Char → List Char
  | 0, l => l
  | _ + 1, [] => []
  | fuel + 1, c :: cs =>
    match (c :: cs).dropWhile isJsWs with
    | y :: ys =>
      if y = x then x :: collapseAroundGo x fuel (ys.dropWhile isJsWs)
      else c :: collapseAroundGo x fuel cs
    | [] => c :: collapseAroundGo x fuel cs

/-- Entry point of the whitespace-collapsing replace. -/
def collapseAround (x : Char) (l : List Char) : List Char :=
  collapseAroundGo x l.length l

/-- `String.replace(/@ov:\s*/g, "")`, fuelled like `replaceWB`. -/
def removeOvGo : Nat → List Char → List Char
  | 0, l => l
  | _ + 1, [] => []
  | fuel + 1, c :: cs =>
    if (['@', 'o', 'v', ':'].isPrefixOf (c :: cs)) = true then
      removeOvGo fuel (((c :: cs).drop 4).dropWhile isJsWs)
    else c :: removeOvGo fuel cs

/-- Entry point of the `@ov:` removal. -/
def removeOv (l : List Char) : List Char :=
  removeOvGo l.length l

/-- Consume the literal characters `pat` from the front of `l`. -/
def eatLit (pat l : List Char) : Option (List Char) :=
  if pat.isPrefixOf l then some (l.drop pat.length) else none

/-- Consume `\s+`: at least one whitespace character, greedily. -/
def eatWs1 (l : List Char) : Option (List Char) :=
  if (l.dropWhile isJsWs).length = l.length then none else some (l.dropWhile isJsWs)

/-- Match the regex `W\s+build\s*\(\s*ctx\s+context\s*\)` at the head of
`l`, returning the unconsumed tail on success. -/
def matchBuild (l : List Char) : Option (List Char) := do
  let r1 ← eatLit ['W'] l
  let r2 ← eatWs1 r1
  let r3 ← eatLit "build".data r2
  let r4 := r3.dropWhile isJsWs
  let r5 ← eatLit ['('] r4
  let r6 := r5.dropWhile isJsWs
  let r7 ← eatLit "ctx".data r6
  let r8 ← eatWs1 r7
  let r9 ← eatLit "context".data r8
  let r10 := r9.dropWhile isJsWs
  let r11 ← eatLit [')'] r10
  return r11

theorem eatLit_length {pat l r : List Char} (h : eatLit pat l = some r) :
    r.length + pat.length ≤ l.length := by
  unfold eatLit at h
  split at h
  · rename_i hp
    cases h
    have := List.IsPrefix.length_le (List.isPrefixOf_iff_prefix.mp hp)
    simp only [List.length_drop]
    omega
  · exact absurd h (by simp)

theorem eatWs1_length {l r : List Char} (h : eatWs1 l = some r) :
    r.length ≤ l.length := by
  unfold eatWs1 at h
  split at h
  · exact absurd h (by simp)
  · cases h
    exact len_dropWhile_le _ _

theorem matchBuild_length {l r : List Char} (h : matchBuild l = some r) :
    r.length < l.length := by
  unfold matchBuild at h
  simp only [Option.bind_eq_bind, Option.bind_eq_some, Option.pure_def,
    Option.some.injEq] at h
  obtain ⟨r1, h1, r2, h2, r3, h3, r5, h5, r7, h7, r8, h8, r9, h9, r11, h11, rfl⟩ := h
  have e1 := eatLit_length h1
  have e2 := eatWs1_length h2
  have e3 := eatLit_length h3
  have e4 : (r3.dropWhile isJsWs).length ≤ r3.length := len_dropWhile_le _ _
  have e5 := eatLit_length h5
  have e6 : (r5.dropWhile isJsWs).length ≤ r5.length := len_dropWhile_le _ _
  have e7 := eatLit_length h7
  have e8 := eatWs1_length h8
  have e9 := eatLit_length h9
  have e10 : (r9.dropWhile isJsWs).length ≤ r9.length := len_dropWhile_le _ _
  have e11 := eatLit_length h11
  simp only [List.length_cons, List.length_nil] at *
  omega

/-- `String.replace(/W\s+build\s*\(\s*ctx\s+context\s*\)/g, "m:b")`,
fuelled like `replaceWB` (a match consumes at least eleven characters). -/
def replaceBuildGo : Nat → List Char → List Char
  | 0, l => l
  | _ + 1, [] => []
  | fuel + 1, c :: cs =>
    match matchBuild (c :: cs) with
    | some rest => 'm' :: ':' :: 'b' :: replaceBuildGo fuel rest
    | none => c :: replaceBuildGo fuel cs

/-- Entry point of the build-method replace. -/
def replaceBuild (l : List Char) : List Char :=
  replaceBuildGo l.length l

/-- `DART_WIDGETS` sorted by descending long-form length, as
`Object.entries(DART_WIDGETS).sort((a, b) => b[0].length - a[0].length)`
produces it (`Array.prototype.sort` is stable, ties keep insertion order). -/
def sortedDartWidgets : List (String × String) :=
  [("CircularProgressIndicator", "Cp"), ("LinearProgressIndicator", "Lp"), ("TextEditingController", "X"),
   ("SingleChildScrollView", "Sv"), ("FloatingActionButton", "Fb"), ("BottomNavigationBar", "Bn"),
   ("OutlineInputBorder", "O"), ("CustomScrollView", "Cv"), ("InputDecoration", "D"),
   ("ElevatedButton", "E"), ("TextFormField", "Tf"), ("Positioned", "Ps"),
   ("IconButton", "Ib"), ("TabBarView", "Tv"), ("TextButton", "Bt"),
   ("TextField", "F"), ("TextStyle", "Y"), ("Container", "K"),
   ("Scaffold", "S"), ("SafeArea", "A"), ("SizedBox", "Z"),
   ("Expanded", "Ex"), ("ListView", "L"), ("GridView", "G"),
   ("Flexible", "Fl"), ("Padding", "P"), ("Divider", "Dv"),
   ("Column", "C"), ("AppBar", "B"), ("Center", "N"),
   ("Drawer", "Dr"), ("TabBar", "Tb"), ("Stack", "St"),
   ("Image", "Im"), ("Align", "Al"), ("Text", "T"),
   ("Card", "Cd"), ("Icon", "Ic"), ("Row", "R")]

/-- `DART_KEYWORDS` sorted by descending long-form length (stable). -/
def sortedDartKeywords : List (String × String) :=
  [("BuildContext", "ctx"), ("implements", ">"), ("override", "ov:"),
   ("extends", "<"), ("import", "im:"), ("return", "ret"),
   ("static", "st:"), ("Widget", "W"), ("class", "c:"),
   ("final", "f:"), ("async", "asy"), ("await", "awt"),
   ("const", "cn:"), ("false", "0"), ("void", "v:"),
   ("with", "+"), ("true", "1"), ("null", "_")]

/-- Adjacent long-form lengths are non-increasing. -/
def lenSortedDesc : List (String × String) → Bool
  | [] => true
  | [_] => true
  | a :: b :: rest => (decide (b.1.length ≤ a.1.length)) && lenSortedDesc (b :: rest)

/-- The sorted widget table is a permutation of the source-order table with
lengths descending: the stable-sort order written above is correct. -/
theorem sortedDartWidgets_perm :
    sortedDartWidgets.Perm DART_WIDGETS ∧ lenSortedDesc sortedDartWidgets = true := by
  constructor
  · decide
  · decide

/-- The sorted keyword table is a permutation of the source-order table with
lengths descending. -/
theorem sortedDartKeywords_perm :
    sortedDartKeywords.Perm DART_KEYWORDS ∧ lenSortedDesc sortedDartKeywords = true := by
  constructor
  · decide
  · decide

/-- One pass per table entry of word-bounded replacement, in table order
(the `for (const [full, abbrev] of ...)` loops over sorted entries). -/
def applyTableWB (tbl : List (String × String)) (l : List Char) : List Char :=
  tbl.foldl (fun acc p => replaceWordBounded p.1 p.2 acc) l

/-- One pass per table entry of plain literal replacement, in source order
(the properties loop uses `escapeRegExp(full)` with no word boundary). -/
def applyTablePlain (tbl : List (String × String)) (l : List Char) : List Char :=
  tbl.foldl (fun acc p => replaceAllStr p.1 p.2 acc) l

/-- The line-normalization prelude of `compressDart`: split on newlines,
trim every line, drop empty lines, rejoin with newlines. -/
def normalizeLines (l : List Char) : List Char :=
  joinWithChar (Char.ofNat 10)
    (((splitOnChar (Char.ofNat 10) l).map jsTrim).filter (fun x => 0 < x.length))

/-- The full text pipeline of `compressDart` (`src/docs/lib/coon-browser.ts`,
lines 206-264): line normalization, widget substitution (longest first,
word-bounded), property substitution (literal), keyword substitution
(longest first, word-bounded), whitespace collapsing around `:`, `(`, `)`,
braces, `,`, `;`, removal of `@ov:` plus trailing whitespace, the build-method
idiom, and finally removal of every newline. -/
def compressDartPipeline (l : List Char) : List Char :=
  let s1 := normalizeLines l
  let s2 := applyTableWB sortedDartWidgets s1
  let s3 := applyTablePlain DART_PROPERTIES s2
  let s4 := applyTableWB sortedDartKeywords s3
  let s5 := collapseAround ':' s4
  let s6 := collapseAround '(' s5
  let s7 := collapseAround ')' s6
  let s8 := collapseAround obr s7
  let s9 := collapseAround cbr s8
  let s10 := collapseAround ',' s9
  let s11 := collapseAround ';' s10
  let s12 := removeOv s11
  let s13 := replaceBuild s12
  s13.filter (fun c => !(c == Char.ofNat 10))

/-- `estimateTokens`: `Math.ceil(text.length / 4)`. -/
def estimateTokens (s : String) : Nat :=
  (s.length + 3) / 4

/-- `Math.max(0, q)` for a finite JS number `q`. -/
def jsMax0 (q : ℚ) : ℚ :=
  if q < 0 then 0 else q

/-- `((originalTokens - compressedTokens) / originalTokens) * 100` followed by
`Math.max(0, …)`, in JS number semantics: `0/0` is `NaN` (modelled `none`,
and `Math.max(0, NaN)` is `NaN`), a negative value divided by zero is
`-Infinity` and `Math.max(0, -Infinity)` is `0`. -/
def jsPercentMax0 (o c : Nat) : Option ℚ :=
  if o = 0 then (if c = 0 then none else some 0)
  else some (jsMax0 ((((o : ℚ) - (c : ℚ)) / (o : ℚ)) * 100))

/-- The `CompressionResult` record of `src/docs/lib/coon-browser.ts`;
`percentageSaved` is an `Option ℚ` so that the JS `NaN` outcome is
representable (`none`). -/
structure CompressionResult where
  compressedCode : String
  originalTokens : Nat
  compressedTokens : Nat
  percentageSaved : Option ℚ
  language : String
deriving DecidableEq, Repr

/-- `compressDart` of `src/docs/lib/coon-browser.ts`. -/
def compressDart (code : String) : CompressionResult :=
  let comp := compressDartPipeline code.data
  let o := estimateTokens code
  let ct := estimateTokens (String.mk comp)
  { compressedCode := String.mk comp
    originalTokens := o
    compressedTokens := ct
    percentageSaved := jsPercentMax0 o ct
    language := "dart" }

/-! ## The benchmark syntax checker `isValidCoonSyntax`

`src/unnamed/part_005` (the benchmark normalizer) validates generated COON
text: a counter scan rejects unbalanced or prematurely closed braces and
brackets, and single-expression inputs are additionally matched against a
small set of shape regexes. -/

/-- Brace-counter update for one character. -/
def stepBrace (c : Char) (bc : Int) : Int :=
  if c = obr then bc + 1 else if c = cbr then bc - 1 else bc

/-- Bracket-counter update for one character. -/
def stepBracket (c : Char) (bk : Int) : Int :=
  if c = '[' then bk + 1 else if c = ']' then bk - 1 else bk

/-- The brace/bracket counter loop of `isValidCoonSyntax`: update both
counters for the character, fail as soon as either is negative, and require
both to be zero at the end. -/
def scanBal : List Char → Int → Int → Bool
  | [], bc, bk => bc == 0 && bk == 0
  | c :: cs, bc, bk =>
    if stepBrace c bc < 0 || stepBracket c bk < 0 then false
    else scanBal cs (stepBrace c bc) (stepBracket c bk)

/-- Regex `^[A-Z][a-z]*\{.*\}$` with the `s` flag (`.` crosses newlines):
an upper-case letter, lower-case letters, an opening brace, anything, and a
final closing brace. -/
def patWidgetBody : List Char → Bool
  | [] => false
  | c :: rest =>
    c.isUpper &&
    (match rest.dropWhile Char.isLower with
     | y :: ys =>
       y = obr && (match ys.getLast? with | some z => decide (z = cbr) | none => false)
     | [] => false)

/-- Regex `^[A-Z]q[^q]*q$` for a quote character `q` (the checker uses it
with both the single and the double quote). -/
def patQuoted (q : Char) : List Char → Bool
  | c :: q1 :: rest =>
    c.isUpper && q1 = q &&
    (match rest.getLast? with
     | some z => decide (z = q) && rest.dropLast.all (fun x => !(x = q))
     | none => false)
  | _ => false

/-- Regex `^c:\w+<\w+>` (not anchored at the end). -/
def patClassHeader : List Char → Bool
  | 'c' :: ':' :: rest =>
    (!(rest.takeWhile isWordChar).isEmpty) &&
    (match rest.drop (rest.takeWhile isWordChar).length with
     | '<' :: r2 =>
       (!(r2.takeWhile isWordChar).isEmpty) &&
       (match (r2.drop (r2.takeWhile isWordChar).length).head? with
        | some z => decide (z = '>')
        | none => false)
     | _ => false)
  | _ => false

/-- Regex `^[A-Z][a-z]*$`. -/
def patBareWidget : List Char → Bool
  | c :: rest => c.isUpper && rest.all Char.isLower
  | [] => false

/-- `isValidCoonSyntax` of the benchmark normalizer (`src/unnamed/part_005`,
lines 606-641): trim, run the balance scan, and for single-expression input
(no semicolon, no newline) that matches none of the shape regexes, require
the first character to be an upper-case letter or `c`. -/
def isValidCoonSyntax (code : String) : Bool :=
  let trimmed := jsTrim code.data
  if !(scanBal trimmed 0 0) then false
  else if !(trimmed.contains ';') && !(trimmed.contains (Char.ofNat 10)) then
    (if (!(patWidgetBody trimmed || patQuoted (Char.ofNat 39) trimmed ||
           patQuoted qc trimmed || patClassHeader trimmed ||
           patBareWidget trimmed)) && 0 < trimmed.length then
       (match trimmed.head? with
        | some c0 => c0.isUpper || c0 = 'c'
        | none => false)
     else true)
  else true

/-- The brace-counter step accounts for the brace counts of a cons. -/
theorem stepBrace_count (c : Char) (p : List Char) (bc : Int) :
    bc + ((c :: p).count obr : Int) - (c :: p).count cbr =
      stepBrace c bc + (p.count obr : Int) - p.count cbr := by
  unfold stepBrace
  by_cases h1 : c = obr
  · subst h1
    rw [List.count_cons_self, List.count_cons_of_ne (by decide), if_pos rfl]
    push_cast
    omega
  · by_cases h2 : c = cbr
    · subst h2
      rw [List.count_cons_of_ne (by decide), List.count_cons_self, if_neg (by decide), if_pos rfl]
      push_cast
      omega
    · rw [List.count_cons_of_ne (fun hh => h1 hh.symm), List.count_cons_of_ne (fun hh => h2 hh.symm),
        if_neg h1, if_neg h2]

/-- The bracket-counter step accounts for the bracket counts of a cons. -/
theorem stepBracket_count (c : Char) (p : List Char) (bk : Int) :
    bk + ((c :: p).count '[' : Int) - (c :: p).count ']' =
      stepBracket c bk + (p.count '[' : Int) - p.count ']' := by
  unfold stepBracket
  by_cases h1 : c = '['
  · subst h1
    rw [List.count_cons_self, List.count_cons_of_ne (by decide), if_pos rfl]
    push_cast
    omega
  · by_cases h2 : c = ']'
    · subst h2
      rw [List.count_cons_of_ne (by decide), List.count_cons_self, if_neg (by decide), if_pos rfl]
      push_cast
      omega
    · rw [List.count_cons_of_ne (fun hh => h1 hh.symm), List.count_cons_of_ne (fun hh => h2 hh.symm),
        if_neg h1, if_neg h2]

/-- Soundness of the balance scan: a passing scan started from non-negative
counters means the totals return both counters to zero and every prefix
keeps both adjusted counters non-negative. -/
theorem scanBal_sound :
    ∀ (l : List Char) (bc bk : Int), 0 ≤ bc → 0 ≤ bk → scanBal l bc bk = true →
      (bc + l.count obr = l.count cbr ∧ bk + l.count '[' = l.count ']') ∧
      (∀ p s, l = p ++ s →
        (p.count cbr : Int) ≤ bc + p.count obr ∧ (p.count ']' : Int) ≤ bk + p.count '[') := by
  intro l
  induction l with
  | nil =>
    intro bc bk hbc hbk h
    simp only [scanBal, Bool.and_eq_true, beq_iff_eq] at h
    refine ⟨by simp [h.1, h.2], ?_⟩
    intro p s hp
    have hpn : p = [] := by
      cases p with
      | nil => rfl
      | cons a as => exact absurd hp (by simp)
    subst hpn
    simp [h.1, h.2]
  | cons c cs ih =>
    intro bc bk hbc hbk h
    rw [scanBal] at h
    split at h
    · exact absurd h (by simp)
    · rename_i hneg
      simp only [Bool.or_eq_true, decide_eq_true_eq, not_or] at hneg
      have hbc2 : (0 : Int) ≤ stepBrace c bc := by omega
      have hbk2 : (0 : Int) ≤ stepBracket c bk := by omega
      obtain ⟨⟨ht1, ht2⟩, hpre⟩ := ih _ _ hbc2 hbk2 h
      refine ⟨⟨?_, ?_⟩, ?_⟩
      · have := stepBrace_count c cs bc
        omega
      · have := stepBracket_count c cs bk
        omega
      · intro p s hp
        cases p with
        | nil => simp [hbc, hbk]
        | cons a as =>
          have hac : a = c := by
            have := congrArg List.head? hp
            simp at this
            exact this.symm
          subst hac
          have hcs : cs = as ++ s := by
            have := congrArg List.tail hp
            simpa using this
          obtain ⟨hq1, hq2⟩ := hpre as s hcs
          have e1 := stepBrace_count a as bc
          have e2 := stepBracket_count a as bk
          constructor
          · omega
          · omega

/-- A passing syntax check implies a passing balance scan on the trimmed
input. -/
theorem isValid_scanBal {code : String}
    (h : isValidCoonSyntax code = true) : scanBal (jsTrim code.data) 0 0 = true := by
  unfold isValidCoonSyntax at h
  by_cases hs : scanBal (jsTrim code.data) 0 0 = true
  · exact hs
  · rw [Bool.not_eq_true] at hs
    simp only [hs] at h
    exact absurd h (by simp)

/-! ## The benchmark compressor singleton

`src/unnamed/part_005` (the COON generator, lines 671-704) keeps a
module-level `compressor` variable: `getCompressor` lazily creates a
`Compressor` with a fixed configuration and caches it; `resetCompressor`
clears the cache. The `Compressor` class itself lives in the external
`coon-format` SDK, outside the source tree. -/

/-- The `CompressionStrategyType` enum of the SDK, as named by the spec
(§9 closed strategy variants) and by the benchmark source
(`COMPONENT_REF`). -/
inductive CompressionStrategyType where
  | MINIMAL
  | AGGRESSIVE
  | PATTERN_REF
  | HYBRID
  | COMPONENT_REF
deriving DecidableEq, Repr

/-- Modelled from the spec: the SDK `Compressor` class is not under `src/`;
per §4.1 and §5 an instance is fully determined by its construction
configuration (strategy and language), and its `compress` method is a pure
function of the instance and the input. The class is therefore modelled as
its configuration record, and `compress` is quantified as an arbitrary
function of that record and the input. -/
structure Compressor where
  strategy : CompressionStrategyType
  language : String
deriving DecidableEq, Repr

/-- The configuration used by `getCompressor`:
`{ strategy: CompressionStrategyType.COMPONENT_REF, language: 'dart' }`. -/
def defaultCompressor : Compressor :=
  { strategy := .COMPONENT_REF, language := "dart" }

/-- `getCompressor` acting on the module-level cache: create the fixed-config
instance on first use, reuse the cached one afterwards. -/
def getCompressor : Option Compressor → Compressor × Option Compressor
  | none => (defaultCompressor, some defaultCompressor)
  | some c => (c, some c)

/-- `resetCompressor`: clear the module-level cache. -/
def resetCompressor : Option Compressor → Option Compressor :=
  fun _ => none

/-- `compressToCoon` for an arbitrary pure SDK `compress` function `f`:
obtain the (possibly cached) compressor and apply it, returning the output
together with the new cache state. -/
def compressToCoon (f : Compressor → String → String)
    (st : Option Compressor) (code : String) : String × Option Compressor :=
  (f (getCompressor st).1 code, (getCompressor st).2)

/-- Module states reachable from module load (`compressor = null`) through
the exported operations. -/
inductive ReachableCache : Option Compressor → Prop where
  | init : ReachableCache none
  | get (st : Option Compressor) : ReachableCache st → ReachableCache (getCompressor st).2
  | reset (st : Option Compressor) : ReachableCache st → ReachableCache (resetCompressor st)
  | compress (f : Compressor → String → String) (code : String) (st : Option Compressor) :
      ReachableCache st → ReachableCache (compressToCoon f st code).2

/-- Cache invariant: the module cache is either empty or holds the
fixed-configuration compressor — no other instance is ever stored. -/
theorem reachableCache_inv {st : Option Compressor} (h : ReachableCache st) :
    st = none ∨ st = some defaultCompressor := by
  induction h with
  | init => exact Or.inl rfl
  | get st _ ih =>
    rcases ih with h1 | h1 <;> subst h1 <;> simp [getCompressor]
  | reset st _ _ => exact Or.inl rfl
  | compress f code st _ ih =>
    rcases ih with h1 | h1 <;> subst h1 <;> simp [compressToCoon, getCompressor]

/-! ## The compact-grammar codec, modelled from the spec

The encoder and decoder of the compact grammar are not in the source tree:
`src/` only contains their callers (the benchmark generator imports
`Compressor` from the external `coon-format` SDK). The definitions below
are therefore modelled from the spec — §3 (IR and symbol tables), §4.1
(encoder), §4.3 (decoder), §6 (grammar), §7 (error taxonomy), §8
(scenarios) — and every claim settled against them says so. Modelling
choices, all recorded here: the widget-tree fragment of the IR
(`WidgetNode` with ordered properties and children, `Literal` leaves) is
modelled; `ClassDecl`/`MethodDecl` are omitted because the spec leaves
`FieldDecl`, `params` and `Statement` undefined; property values are
literal leaves; the `position` field of `ParseError` is omitted (the claims
concern the error kind); numbers are digit strings; following the §8
scenario, the encoder always renders the property group (`S{}`), omits an
empty child group, and renders a property key without a table entry as
itself. -/

/-- Modelled from the spec: §3 literal kinds `String|Number|Bool|Null`. -/
inductive LitKind where
  | str
  | num
  | bool
  | null
deriving DecidableEq, Repr

/-- Modelled from the spec: §3 `Literal{kind, raw}`. -/
structure Literal where
  kind : LitKind
  raw : String
deriving DecidableEq, Repr

mutual

/-- Modelled from the spec: §3 `WidgetNode{typeRef, properties, children}`
with order-significant property and child lists. -/
inductive WidgetNode where
  | mk (typeRef : String) (properties : List (String × Literal)) (children : WidgetList)

/-- The ordered children of a widget node (a mutual list so that the codec
and its proofs can recurse structurally). -/
inductive WidgetList where
  | nil
  | cons (head : WidgetNode) (tail : WidgetList)

end

/-- Modelled from the spec: §7 `ParseError` kinds (the `position` field is
omitted; the claims concern the kind). -/
inductive ParseError where
  | UnterminatedString
  | UnbalancedBracket
  | UnknownShortCode
  | UnknownReferenceId
  | UnexpectedToken
deriving DecidableEq, Repr

/-- Modelled from the spec: §3 category-partitioned symbol tables, each a
list of (long form, short form) records. -/
structure SymbolTables where
  types : List (String × String)
  props : List (String × String)
  keywords : List (String × String)
  literals : List (String × String)

/-- Long-form lookup (first entry wins; well-formed tables have distinct
long forms). -/
def lookupLong (tbl : List (String × String)) (long : String) : Option String :=
  (tbl.find? (fun p => p.1 == long)).map (fun p => p.2)

/-- Short-form lookup (first entry wins; well-formed tables have distinct
short forms). -/
def lookupShort (tbl : List (String × String)) (sh : String) : Option String :=
  (tbl.find? (fun p => p.2 == sh)).map (fun p => p.1)

/-- A grammar token: non-empty and alphanumeric, so the lexer reads it
atomically. -/
def tokOk (s : String) : Bool :=
  !s.data.isEmpty && s.data.all Char.isAlphanum

/-- Modelled from the spec: the §3 symbol-table invariant on one category —
the long→short and short→long mappings are both functions (distinct long
forms, distinct short forms) and every short form is a lexable token. -/
def tableOk (tbl : List (String × String)) : Bool :=
  allDistinct (tbl.map (fun p => p.1)) && allDistinct (tbl.map (fun p => p.2)) &&
  tbl.all (fun p => tokOk p.2)

/-- Well-formedness of the two categories the widget-tree codec uses. -/
def wfTables (tbl : SymbolTables) : Bool :=
  tableOk tbl.types && tableOk tbl.props

/-- Modelled from the spec: §4.1/§6 reserved characters that the single
escape character must make unambiguous inside string literals — braces,
brackets, comma, semicolon, the quote, and the escape character itself. -/
def reservedChar (c : Char) : Bool :=
  c = obr || c = cbr || c = '[' || c = ']' || c = ',' || c = ';' || c = qc || c = bslash

/-- Modelled from the spec: escape the body of a string literal by
prefixing every reserved character with the escape character. -/
def escBody : List Char → List Char
  | [] => []
  | c :: cs => if reservedChar c then bslash :: c :: escBody cs else c :: escBody cs

/-- Modelled from the spec: render a literal — strings quoted and escaped,
other kinds as their raw text. -/
def encLit (v : Literal) : List Char :=
  match v.kind with
  | .str => qc :: (escBody v.raw.data ++ [qc])
  | _ => v.raw.data

/-- Modelled from the spec: a property key is looked up in the Property
category only, and rendered as itself when absent (§8 scenario: `data`
stays `data` under a table that only maps type names). -/
def encKey (tbl : SymbolTables) (k : String) : List Char :=
  match lookupLong tbl.props k with
  | some s => s.data
  | none => k.data

/-- Modelled from the spec: a type reference is looked up in the Type
category only. -/
def encTypeTok (tbl : SymbolTables) (ty : String) : List Char :=
  match lookupLong tbl.types ty with
  | some s => s.data
  | none => ty.data

/-- Render one `key:value` property. -/
def encProp (tbl : SymbolTables) (p : String × Literal) : List Char :=
  encKey tbl p.1 ++ ':' :: encLit p.2

/-- Render a comma-separated property list (without the braces). -/
def encPropsBody (tbl : SymbolTables) : List (String × Literal) → List Char
  | [] => []
  | [p] => encProp tbl p
  | p :: ps => encProp tbl p ++ ',' :: encPropsBody tbl ps

mutual

/-- Modelled from the spec: §6 widget-node rendering
`<typeShort>{<key>:<value>,...}[<child>,...]`, always emitting the property
group and omitting an empty child group (§8 scenario `S{}[T{data:"Hi"}]`). -/
def encW (tbl : SymbolTables) : WidgetNode → List Char
  | .mk ty ps cs =>
    encTypeTok tbl ty ++ obr :: (encPropsBody tbl ps ++ cbr ::
      (match cs with
       | .nil => []
       | .cons c rest => '[' :: (encKids tbl (.cons c rest) ++ [']'])))
  termination_by structural t => t

/-- Render a comma-separated child list (without the brackets). -/
def encKids (tbl : SymbolTables) : WidgetList → List Char
  | .nil => []
  | .cons c .nil => encW tbl c
  | .cons c (.cons c2 rest) => encW tbl c ++ ',' :: encKids tbl (.cons c2 rest)
  termination_by structural cs => cs

end

/-- Does a literal satisfy the §3 grammar for its kind (numbers are digit
strings, booleans are `true`/`false`, null is `null`)? -/
def litOk (v : Literal) : Bool :=
  match v.kind with
  | .str => true
  | .num => !v.raw.data.isEmpty && v.raw.data.all Char.isDigit
  | .bool => v.raw == "true" || v.raw == "false"
  | .null => v.raw == "null"

/-- Is a property key reconstructible: either registered in the Property
category, or a lexable token that does not collide with a registered short
form. -/
def keyOk (tbl : SymbolTables) (k : String) : Bool :=
  match lookupLong tbl.props k with
  | some _ => true
  | none => tokOk k && (lookupShort tbl.props k).isNone

mutual

/-- Modelled from the spec: a §3-well-formed widget tree — the type
reference is a lookup into the Type table, the property keys and literal
values satisfy the grammar, recursively. -/
def wfNode (tbl : SymbolTables) : WidgetNode → Bool
  | .mk ty ps cs =>
    (lookupLong tbl.types ty).isSome &&
    ps.all (fun p => keyOk tbl p.1 && litOk p.2) &&
    wfKids tbl cs
  termination_by structural t => t

/-- Well-formedness of a child list. -/
def wfKids (tbl : SymbolTables) : WidgetList → Bool
  | .nil => true
  | .cons c cs => wfNode tbl c && wfKids tbl cs
  termination_by structural cs => cs

end

/-- Modelled from the spec: §4.3 string-literal state — read characters
until the closing quote, the escape character making the next character
literal; running out of input is `UnterminatedString`. -/
def parseStr : Nat → List Char → Except ParseError (List Char × List Char)
  | _, [] => .error .UnterminatedString
  | 0, _ => .error .UnexpectedToken
  | f+1, c :: r =>
    if c = bslash then
      match r with
      | [] => .error .UnterminatedString
      | c2 :: r2 =>
        match parseStr f r2 with
        | .ok (content, rest) => .ok (c2 :: content, rest)
        | .error e => .error e
    else if c = qc then .ok ([], r)
    else
      match parseStr f r with
      | .ok (content, rest) => .ok (c :: content, rest)
      | .error e => .error e

/-- Classify a bare value token per the §3 literal grammar. -/
def classifyBare (tok : List Char) : Option Literal :=
  if tok = "true".data then some ⟨.bool, "true"⟩
  else if tok = "false".data then some ⟨.bool, "false"⟩
  else if tok = "null".data then some ⟨.null, "null"⟩
  else if !tok.isEmpty && tok.all Char.isDigit then some ⟨.num, String.mk tok⟩
  else none

/-- Modelled from the spec: parse one property value — a quoted string or a
bare literal token. -/
def parseVal (fuel : Nat) (l : List Char) : Except ParseError (Literal × List Char) :=
  match l with
  | [] => .error .UnbalancedBracket
  | c :: r =>
    if c = qc then
      match parseStr fuel r with
      | .ok (content, rest) => .ok (⟨.str, String.mk content⟩, rest)
      | .error e => .error e
    else
      match classifyBare (l.takeWhile Char.isAlphanum) with
      | some v => .ok (v, l.drop (l.takeWhile Char.isAlphanum).length)
      | none => .error .UnexpectedToken

/-- Modelled from the spec: §4.3 property-map state, entered after the
opening brace — `}` closes the (possibly empty) map (the lookahead
disambiguation of §4.3), otherwise `key:value` pairs separated by commas;
a key token is expanded through the Property category when it is a
registered short form and kept as written otherwise; running out of input
inside the braces is `UnbalancedBracket`. -/
def parseProps (tbl : SymbolTables) : Nat → List Char → Except ParseError (List (String × Literal) × List Char)
  | _, [] => .error .UnbalancedBracket
  | 0, _ => .error .UnexpectedToken
  | f+1, c :: r =>
    if c = cbr then .ok ([], r)
    else
      let tok := (c :: r).takeWhile Char.isAlphanum
      if tok.isEmpty then .error .UnexpectedToken
      else
        let key := match lookupShort tbl.props (String.mk tok) with
          | some long => long
          | none => String.mk tok
        match (c :: r).drop tok.length with
        | [] => .error .UnbalancedBracket
        | c1 :: r2 =>
          if c1 = ':' then
            match parseVal f r2 with
            | .ok (v, r3) =>
              (match r3 with
               | [] => .error .UnbalancedBracket
               | c2 :: r4 =>
                 if c2 = ',' then
                   match parseProps tbl f r4 with
                   | .ok (ps, r5) => .ok ((key, v) :: ps, r5)
                   | .error e => .error e
                 else if c2 = cbr then .ok ([(key, v)], r4)
                 else .error .UnexpectedToken)
            | .error e => .error e
          else .error .UnexpectedToken

mutual

/-- Modelled from the spec: §4.3 node state — read the leading short code
and resolve it in the Type category (`UnknownShortCode` when absent, §8
scenario `Q{}`), then an optional brace-delimited property map and an
optional bracket-delimited child list. -/
def parseNode (tbl : SymbolTables) : Nat → List Char → Except ParseError (WidgetNode × List Char)
  | 0, _ => .error .UnexpectedToken
  | f+1, l =>
    let tok := l.takeWhile Char.isAlphanum
    if tok.isEmpty then .error .UnexpectedToken
    else match lookupShort tbl.types (String.mk tok) with
      | none => .error .UnknownShortCode
      | some long =>
        match l.drop tok.length with
        | c :: r2 =>
          if c = obr then
            match parseProps tbl f r2 with
            | .ok (ps, r3) =>
              (match r3 with
               | c2 :: r4 =>
                 if c2 = '[' then
                   match parseKids tbl f r4 with
                   | .ok (cs, r5) => .ok (.mk long ps cs, r5)
                   | .error e => .error e
                 else .ok (.mk long ps .nil, c2 :: r4)
               | [] => .ok (.mk long ps .nil, []))
            | .error e => .error e
          else if c = '[' then
            match parseKids tbl f r2 with
            | .ok (cs, r5) => .ok (.mk long [] cs, r5)
            | .error e => .error e
          else .ok (.mk long [] .nil, c :: r2)
        | [] => .ok (.mk long [] .nil, [])
  termination_by structural fuel => fuel

/-- Modelled from the spec: child-list state, entered after the opening
bracket — `]` closes the list, children separated by commas; running out of
input inside the brackets is `UnbalancedBracket`. -/
def parseKids (tbl : SymbolTables) : Nat → List Char → Except ParseError (WidgetList × List Char)
  | 0, _ => .error .UnexpectedToken
  | f+1, l =>
    match l with
    | [] => .error .UnbalancedBracket
    | c :: r =>
      if c = ']' then .ok (.nil, r)
      else
        match parseNode tbl f (c :: r) with
        | .ok (child, r2) =>
          match r2 with
          | [] => .error .UnbalancedBracket
          | c2 :: r3 =>
            if c2 = ',' then
              match parseKids tbl f r3 with
              | .ok (cs, r4) => .ok (.cons child cs, r4)
              | .error e => .error e
            else if c2 = ']' then .ok (.cons child .nil, r3)
            else .error .UnexpectedToken
        | .error e => .error e
  termination_by structural fuel => fuel

end

/-- Modelled from the spec: §4.3 `decode` — run the node parser with enough
fuel for the document and require the whole document to be consumed; a
typed `ParseError` is the only failure mode, never a partial tree. -/
def decode (tbl : SymbolTables) (doc : String) : Except ParseError WidgetNode :=
  match parseNode tbl (doc.data.length + 1) doc.data with
  | .ok (t, []) => .ok t
  | .ok (_, _ :: _) => .error .UnexpectedToken
  | .error e => .error e

/-- Modelled from the spec: §4.1 `encode` under the minimal strategy —
symbol-table substitution on typed IR fields and structural rendering. -/
def encode (tbl : SymbolTables) (t : WidgetNode) : String :=
  String.mk (encW tbl t)

/-- The §8 scenario symbol table: `Scaffold→S, Text→T`, nothing else. -/
def scenarioTables : SymbolTables :=
  { types := [("Scaffold", "S"), ("Text", "T")]
    props := []
    keywords := []
    literals := [] }

/-! ## Round-trip lemmas: tokens, tables, literals -/

/-- A list that does not `contains` an element does not contain it. -/
theorem not_mem_of_contains_false {x : String} {xs : List String}
    (h : xs.contains x = false) : x ∉ xs := by
  intro hm
  exact absurd (List.elem_eq_true_of_mem hm) (by simp_all [List.contains])

/-- `allDistinct` head: the head is absent from the tail and the tail is
distinct. -/
theorem allDistinct_cons {x : String} {xs : List String}
    (h : allDistinct (x :: xs) = true) : x ∉ xs ∧ allDistinct xs = true := by
  rw [allDistinct, Bool.and_eq_true, Bool.not_eq_true'] at h
  exact ⟨not_mem_of_contains_false h.1, h.2⟩

/-- A successful long-form lookup exhibits its table entry. -/
theorem lookupLong_mem {tbl : List (String × String)} {k s : String}
    (h : lookupLong tbl k = some s) : (k, s) ∈ tbl := by
  unfold lookupLong at h
  cases hf : tbl.find? (fun p => p.1 == k) with
  | none => rw [hf] at h; exact absurd h (by simp)
  | some p =>
    rw [hf] at h
    simp at h
    have hm := List.mem_of_find?_eq_some hf
    have hp := List.find?_some hf
    simp only [beq_iff_eq] at hp
    have hps : p = (k, s) := by
      cases p with
      | mk a b => simp_all
    rwa [hps] at hm

/-- With distinct short forms, the short-form lookup inverts a successful
long-form lookup. -/
theorem lookupShort_of_lookupLong {tbl : List (String × String)} {k s : String}
    (hd : allDistinct (tbl.map (fun p => p.2)) = true)
    (h : lookupLong tbl k = some s) : lookupShort tbl s = some k := by
  induction tbl with
  | nil => exact absurd h (by simp [lookupLong])
  | cons a rest ih =>
    rw [List.map_cons] at hd
    obtain ⟨hnm, hdr⟩ := allDistinct_cons hd
    unfold lookupLong at h
    by_cases hk : a.1 = k
    · rw [List.find?_cons_of_pos _ (by simp [hk])] at h
      simp at h
      unfold lookupShort
      rw [List.find?_cons_of_pos _ (by simp [h])]
      simp [hk]
    · rw [List.find?_cons_of_neg _ (by simp [hk])] at h
      have hrec : lookupLong rest k = some s := by unfold lookupLong; rw [h]
      have hmem := lookupLong_mem hrec
      have hs : s ∈ rest.map (fun p => p.2) := List.mem_map_of_mem _ hmem
      have hne : a.2 ≠ s := fun he => hnm (he ▸ hs)
      unfold lookupShort
      rw [List.find?_cons_of_neg _ (by simp [hne])]
      exact ih hdr hrec

/-- Every short form of a well-formed category is a lexable token. -/
theorem tokOk_of_mem {tbl : List (String × String)} {k s : String}
    (ht : tableOk tbl = true) (hm : (k, s) ∈ tbl) : tokOk s = true := by
  unfold tableOk at ht
  rw [Bool.and_eq_true, Bool.and_eq_true] at ht
  have h2 := ht.2
  rw [List.all_eq_true] at h2
  exact h2 (k, s) hm

/-- `takeWhile` stops exactly at the boundary of a clean token. -/
theorem takeWhile_app {p : Char → Bool} {xs rest : List Char}
    (hxs : ∀ c ∈ xs, p c = true)
    (hrest : ∀ c, rest.head? = some c → p c = false) :
    (xs ++ rest).takeWhile p = xs := by
  induction xs with
  | nil =>
    cases rest with
    | nil => rfl
    | cons c r =>
      simp only [List.nil_append, List.takeWhile]
      rw [hrest c rfl]
  | cons x xs ih =>
    simp only [List.cons_append, List.takeWhile]
    rw [hxs x (by simp)]
    simp only [List.cons.injEq, true_and]
    exact ih (fun c hc => hxs c (by simp [hc]))

/-- A character the escaper leaves bare is neither the escape character nor
the quote. -/
theorem not_reserved_facts {c : Char} (h : reservedChar c = false) :
    c ≠ bslash ∧ c ≠ qc := by
  unfold reservedChar at h
  simp only [Bool.or_eq_false_iff, decide_eq_false_iff_not] at h
  exact ⟨h.2, h.1.2⟩

/-- One unfolding step of `parseStr` on a cons cell. -/
theorem parseStr_cons (f : Nat) (c : Char) (r : List Char) :
    parseStr (f + 1) (c :: r) =
      (if c = bslash then
        match r with
        | [] => .error .UnterminatedString
        | c2 :: r2 =>
          match parseStr f r2 with
          | .ok (content, rest) => .ok (c2 :: content, rest)
          | .error e => .error e
      else if c = qc then .ok ([], r)
      else
        match parseStr f r with
        | .ok (content, rest) => .ok (c :: content, rest)
        | .error e => .error e) := rfl

/-- The string-literal parser inverts the escaper: reading the escaped body
followed by the closing quote returns the raw body and the tail. -/
theorem parseStr_escBody (s : List Char) :
    ∀ (fuel : Nat) (rest : List Char), (escBody s).length < fuel →
      parseStr fuel (escBody s ++ (qc :: rest)) = .ok (s, rest) := by
  induction s with
  | nil =>
    intro fuel rest hf
    cases fuel with
    | zero => simp [escBody] at hf
    | succ f =>
      simp only [escBody, List.nil_append]
      rw [parseStr_cons, if_neg (by decide), if_pos rfl]
  | cons c cs ih =>
    intro fuel rest hf
    cases hr : reservedChar c with
    | true =>
      have hesc : escBody (c :: cs) = bslash :: c :: escBody cs := by
        rw [escBody, if_pos hr]
      rw [hesc] at hf ⊢
      simp only [List.length_cons] at hf
      cases fuel with
      | zero => omega
      | succ f =>
        simp only [List.cons_append]
        rw [parseStr_cons, if_pos rfl]
        simp only [ih f rest (by omega)]
    | false =>
      have hesc : escBody (c :: cs) = c :: escBody cs := by
        rw [escBody, if_neg (by simp [hr])]
      obtain ⟨hcb, hcq⟩ := not_reserved_facts hr
      rw [hesc] at hf ⊢
      simp only [List.length_cons] at hf
      cases fuel with
      | zero => omega
      | succ f =>
        simp only [List.cons_append]
        rw [parseStr_cons, if_neg hcb, if_neg hcq]
        simp only [ih f rest (by omega)]

/-- One unfolding step of `parseVal` on a cons cell. -/
theorem parseVal_cons (fuel : Nat) (c : Char) (r : List Char) :
    parseVal fuel (c :: r) =
      (if c = qc then
        match parseStr fuel r with
        | .ok (content, rest) => .ok (⟨.str, String.mk content⟩, rest)
        | .error e => .error e
      else
        match classifyBare ((c :: r).takeWhile Char.isAlphanum) with
        | some v => .ok (v, (c :: r).drop ((c :: r).takeWhile Char.isAlphanum).length)
        | none => .error .UnexpectedToken) := rfl

/-- Digits are alphanumeric. -/
theorem isAlphanum_of_isDigit {c : Char} (h : c.isDigit = true) :
    c.isAlphanum = true := by
  unfold Char.isAlphanum
  rw [h]
  simp

/-- A nonempty all-digit token is classified as the number literal it
spells. -/
theorem classifyBare_digits {tok : List Char} (hne : tok ≠ [])
    (hd : tok.all Char.isDigit = true) :
    classifyBare tok = some ⟨.num, String.mk tok⟩ := by
  have hns : ∀ (s : List Char), s.all Char.isDigit = false → tok ≠ s := by
    intro s hs he
    rw [he, hs] at hd
    exact absurd hd (by simp)
  unfold classifyBare
  rw [if_neg (hns _ (by decide)), if_neg (hns _ (by decide)), if_neg (hns _ (by decide)),
    if_pos (by simp [hd, hne])]

/-- The value parser inverts the literal encoder for well-formed literals,
whenever the following character cannot extend a bare token. -/
theorem parseVal_encLit {v : Literal} (hv : litOk v = true) :
    ∀ (fuel : Nat) (rest : List Char), (encLit v).length ≤ fuel →
      (∀ c, rest.head? = some c → c.isAlphanum = false) →
      parseVal fuel (encLit v ++ rest) = .ok (v, rest) := by
  obtain ⟨kind, raw⟩ := v
  intro fuel rest hf hrest
  cases kind with
  | str =>
    have henc : encLit ⟨.str, raw⟩ = qc :: (escBody raw.data ++ [qc]) := rfl
    rw [henc] at hf ⊢
    simp only [List.length_cons, List.length_append] at hf
    rw [List.cons_append, List.append_assoc]
    simp only [List.singleton_append]
    rw [parseVal_cons, if_pos rfl]
    rw [parseStr_escBody raw.data fuel rest (by omega)]
  | num =>
    simp only [litOk, Bool.and_eq_true, Bool.not_eq_true'] at hv
    have hne : raw.data ≠ [] := by
      intro he
      rw [he] at hv
      exact absurd hv.1 (by decide)
    have hdg : raw.data.all Char.isDigit = true := hv.2
    have henc : encLit ⟨.num, raw⟩ = raw.data := rfl
    rw [henc]
    cases hrd : raw.data with
    | nil => exact absurd hrd hne
    | cons c r =>
      have hcd : c.isDigit = true := by
        rw [hrd] at hdg
        simp only [List.all_cons, Bool.and_eq_true] at hdg
        exact hdg.1
      have hcq : ¬ c = qc := by
        intro he
        rw [he] at hcd
        exact absurd hcd (by decide)
      rw [List.cons_append, parseVal_cons, if_neg hcq]
      rw [← List.cons_append, ← hrd]
      have htw : (raw.data ++ rest).takeWhile Char.isAlphanum = raw.data := by
        apply takeWhile_app
        · intro x hx
          apply isAlphanum_of_isDigit
          rw [List.all_eq_true] at hdg
          exact hdg x hx
        · exact hrest
      rw [htw, classifyBare_digits hne hdg, List.drop_left]
  | bool =>
    simp only [litOk] at hv
    rw [Bool.or_eq_true, beq_iff_eq, beq_iff_eq] at hv
    cases hv with
    | inl hr =>
      subst hr
      have henc : encLit ⟨.bool, "true"⟩ = "true".data := rfl
      rw [henc]
      have htw : ("true".data ++ rest).takeWhile Char.isAlphanum = "true".data := by
        apply takeWhile_app
        · decide
        · exact hrest
      rw [show ("true".data ++ rest) = 't' :: ("rue".data ++ rest) by rfl]
      rw [parseVal_cons, if_neg (by decide)]
      rw [show ('t' :: ("rue".data ++ rest)) = ("true".data ++ rest) by rfl]
      rw [htw]
      rw [show classifyBare "true".data = some ⟨.bool, "true"⟩ by rfl, List.drop_left]
    | inr hr =>
      subst hr
      have henc : encLit ⟨.bool, "false"⟩ = "false".data := rfl
      rw [henc]
      have htw : ("false".data ++ rest).takeWhile Char.isAlphanum = "false".data := by
        apply takeWhile_app
        · decide
        · exact hrest
      rw [show ("false".data ++ rest) = 'f' :: ("alse".data ++ rest) by rfl]
      rw [parseVal_cons, if_neg (by decide)]
      rw [show ('f' :: ("alse".data ++ rest)) = ("false".data ++ rest) by rfl]
      rw [htw]
      rw [show classifyBare "false".data = some ⟨.bool, "false"⟩ by rfl, List.drop_left]
  | null =>
    simp only [litOk, beq_iff_eq] at hv
    subst hv
    have henc : encLit ⟨.null, "null"⟩ = "null".data := rfl
    rw [henc]
    have htw : ("null".data ++ rest).takeWhile Char.isAlphanum = "null".data := by
      apply takeWhile_app
      · decide
      · exact hrest
    rw [show ("null".data ++ rest) = 'n' :: ("ull".data ++ rest) by rfl]
    rw [parseVal_cons, if_neg (by decide)]
    rw [show ('n' :: ("ull".data ++ rest)) = ("null".data ++ rest) by rfl]
    rw [htw]
    rw [show classifyBare "null".data = some ⟨.null, "null"⟩ by rfl, List.drop_left]

/-- `wfTables` decomposition. -/
theorem wfTables_parts {tbl : SymbolTables} (h : wfTables tbl = true) :
    tableOk tbl.types = true ∧ tableOk tbl.props = true := by
  rw [wfTables, Bool.and_eq_true] at h
  exact h

/-- `tableOk` decomposition. -/
theorem tableOk_parts {tbl : List (String × String)} (h : tableOk tbl = true) :
    allDistinct (tbl.map (fun p => p.1)) = true ∧
    allDistinct (tbl.map (fun p => p.2)) = true ∧
    tbl.all (fun p => tokOk p.2) = true := by
  rw [tableOk, Bool.and_eq_true, Bool.and_eq_true] at h
  exact ⟨h.1.1, h.1.2, h.2⟩

/-- `tokOk` decomposition. -/
theorem tokOk_parts {s : String} (h : tokOk s = true) :
    s.data ≠ [] ∧ s.data.all Char.isAlphanum = true := by
  rw [tokOk, Bool.and_eq_true, Bool.not_eq_true'] at h
  exact ⟨fun he => by rw [he] at h; exact absurd h.1 (by decide), h.2⟩

/-- The rendered key of a well-formed property is a lexable token. -/
theorem encKey_tok {tbl : SymbolTables} (hw : wfTables tbl = true) {k : String}
    (hk : keyOk tbl k = true) :
    encKey tbl k ≠ [] ∧ (encKey tbl k).all Char.isAlphanum = true := by
  unfold encKey
  unfold keyOk at hk
  cases hl : lookupLong tbl.props k with
  | some s =>
    have hmem := lookupLong_mem hl
    have htok := tokOk_of_mem (wfTables_parts hw).2 hmem
    exact tokOk_parts htok
  | none =>
    rw [hl] at hk
    rw [Bool.and_eq_true] at hk
    exact tokOk_parts hk.1

/-- Decoding the rendered key through the Property category returns the
original key: a registered key round-trips through its short form, an
unregistered key is left as written and collides with no short form. -/
theorem encKey_decode {tbl : SymbolTables} (hw : wfTables tbl = true) {k : String}
    (hk : keyOk tbl k = true) :
    (match lookupShort tbl.props (String.mk (encKey tbl k)) with
     | some long => long
     | none => String.mk (encKey tbl k)) = k := by
  unfold encKey
  unfold keyOk at hk
  cases hl : lookupLong tbl.props k with
  | some s =>
    have hshort : lookupShort tbl.props s = some k :=
      lookupShort_of_lookupLong (tableOk_parts (wfTables_parts hw).2).2.1 hl
    rw [show String.mk s.data = s from rfl, hshort]
  | none =>
    rw [hl, Bool.and_eq_true] at hk
    rw [show String.mk k.data = k from rfl]
    rw [Option.isNone_iff_eq_none] at hk
    rw [hk.2]

/-- One unfolding step of `parseProps` on a cons cell. -/
theorem parseProps_cons (tbl : SymbolTables) (f : Nat) (c : Char) (r : List Char) :
    parseProps tbl (f + 1) (c :: r) =
      (if c = cbr then .ok ([], r)
      else
        let tok := (c :: r).takeWhile Char.isAlphanum
        if tok.isEmpty then .error .UnexpectedToken
        else
          let key := match lookupShort tbl.props (String.mk tok) with
            | some long => long
            | none => String.mk tok
          match (c :: r).drop tok.length with
          | [] => .error .UnbalancedBracket
          | c1 :: r2 =>
            if c1 = ':' then
              match parseVal f r2 with
              | .ok (v, r3) =>
                (match r3 with
                 | [] => .error .UnbalancedBracket
                 | c2 :: r4 =>
                   if c2 = ',' then
                     match parseProps tbl f r4 with
                     | .ok (ps, r5) => .ok ((key, v) :: ps, r5)
                     | .error e => .error e
                   else if c2 = cbr then .ok ([(key, v)], r4)
                   else .error .UnexpectedToken)
              | .error e => .error e
            else .error .UnexpectedToken) := rfl

/-- An alphanumeric character is none of the grammar separators. -/
theorem alphanum_not_sep {c : Char} (h : c.isAlphanum = true) :
    c ≠ cbr ∧ c ≠ obr ∧ c ≠ ',' ∧ c ≠ '[' ∧ c ≠ ']' ∧ c ≠ ':' := by
  refine ⟨?_, ?_, ?_, ?_, ?_, ?_⟩ <;>
    (intro he; rw [he] at h; exact absurd h (by decide))

/-- The property parser inverts the property-list renderer for well-formed
properties: parsing the rendered body followed by the closing brace returns
the property list and the tail. -/
theorem parseProps_encBody {tbl : SymbolTables} (hw : wfTables tbl = true) :
    ∀ (ps : List (String × Literal)) (fuel : Nat) (rest : List Char),
      ps.all (fun p => keyOk tbl p.1 && litOk p.2) = true →
      (encPropsBody tbl ps).length < fuel →
      parseProps tbl fuel (encPropsBody tbl ps ++ (cbr :: rest)) = .ok (ps, rest) := by
  intro ps
  induction ps with
  | nil =>
    intro fuel rest hall hf
    cases fuel with
    | zero => omega
    | succ f =>
      simp only [encPropsBody, List.nil_append]
      rw [parseProps_cons, if_pos rfl]
  | cons p tail ih =>
    intro fuel rest hall hf
    obtain ⟨k, v⟩ := p
    rw [List.all_cons, Bool.and_eq_true, Bool.and_eq_true] at hall
    obtain ⟨⟨hkOk0, hvOk0⟩, htail⟩ := hall
    have hkOk : keyOk tbl k = true := hkOk0
    have hvOk : litOk v = true := hvOk0
    obtain ⟨hkne, hkal⟩ := encKey_tok hw hkOk
    have hshape : ∃ X, encPropsBody tbl ((k, v) :: tail) ++ (cbr :: rest) =
        (encKey tbl k ++ (':' :: (encLit v ++ X))) ∧
        ((tail = [] ∧ X = cbr :: rest) ∨
         (tail ≠ [] ∧ X = ',' :: (encPropsBody tbl tail ++ (cbr :: rest)))) := by
      cases tail with
      | nil =>
        refine ⟨cbr :: rest, ?_, Or.inl ⟨rfl, rfl⟩⟩
        show encProp tbl (k, v) ++ (cbr :: rest) = _
        rw [encProp]
        simp [List.append_assoc]
      | cons t2 ts =>
        refine ⟨',' :: (encPropsBody tbl (t2 :: ts) ++ (cbr :: rest)), ?_,
          Or.inr ⟨by simp, rfl⟩⟩
        show (encProp tbl (k, v) ++ ',' :: encPropsBody tbl (t2 :: ts)) ++ (cbr :: rest) = _
        rw [encProp]
        simp [List.append_assoc]
    obtain ⟨X, hX, hXcase⟩ := hshape
    have hXhead : ∀ c, X.head? = some c → c.isAlphanum = false := by
      intro c hc
      rcases hXcase with ⟨_, hXe⟩ | ⟨_, hXe⟩ <;> rw [hXe] at hc <;>
        (simp only [List.head?] at hc; injection hc with hc2; rw [← hc2]; decide)
    rw [hX]
    cases henc : encKey tbl k with
    | nil => exact absurd henc hkne
    | cons kc ktl =>
      have hkc : kc.isAlphanum = true := by
        have h2 := hkal
        rw [henc, List.all_cons, Bool.and_eq_true] at h2
        exact h2.1
      have hekl : (encKey tbl k).length = ktl.length + 1 := by
        rw [henc]
        simp
      cases fuel with
      | zero => omega
      | succ f =>
        have htw : ((encKey tbl k ++ (':' :: (encLit v ++ X)))).takeWhile Char.isAlphanum
            = encKey tbl k := by
          apply takeWhile_app
          · intro x hx
            exact (List.all_eq_true.mp hkal) x hx
          · intro c hc
            simp only [List.head?] at hc
            injection hc with hc2
            rw [← hc2]
            decide
        have hie : (encKey tbl k).isEmpty = false := by
          cases hek : encKey tbl k with
          | nil => exact absurd hek hkne
          | cons a b => rfl
        have hlens := congrArg List.length hX
        simp only [List.length_append, List.length_cons] at hlens
        rw [List.cons_append, parseProps_cons,
          if_neg (show ¬ kc = cbr from (alphanum_not_sep hkc).1),
          ← List.cons_append, ← henc]
        rcases hXcase with ⟨hte, hXe⟩ | ⟨htne, hXe⟩
        · subst hte
          subst hXe
          have hbody : (encPropsBody tbl [(k, v)]).length =
              (encKey tbl k).length + 1 + (encLit v).length := by
            show (encProp tbl (k, v)).length = _
            rw [encProp]
            simp [List.length_append]
            omega
          have hval := parseVal_encLit hvOk f (cbr :: rest) (by omega) hXhead
          simp only [htw, hie, Bool.false_eq_true, if_false, List.drop_left,
            encKey_decode hw hkOk, hval]
          simp
          intro hcc
          exact absurd hcc (by decide)
        · cases tail with
          | nil => exact absurd rfl htne
          | cons t2 ts =>
            subst hXe
            have hbody : (encPropsBody tbl ((k, v) :: t2 :: ts)).length =
                (encKey tbl k).length + 1 + (encLit v).length + 1 +
                  (encPropsBody tbl (t2 :: ts)).length := by
              show (encProp tbl (k, v) ++ ',' :: encPropsBody tbl (t2 :: ts)).length = _
              rw [encProp]
              simp [List.length_append]
              omega
            have hval := parseVal_encLit hvOk f
              (',' :: (encPropsBody tbl (t2 :: ts) ++ (cbr :: rest))) (by omega) hXhead
            have hrec := ih f rest htail (by omega)
            simp only [htw, hie, Bool.false_eq_true, if_false, List.drop_left,
              encKey_decode hw hkOk, hval, hrec]
            simp

mutual

/-- Size of a widget node (for strong induction). -/
def sizeW : WidgetNode → Nat
  | .mk _ _ cs => 1 + sizeL cs
  termination_by structural t => t

/-- Size of a child list. -/
def sizeL : WidgetList → Nat
  | .nil => 0
  | .cons c cs => sizeW c + sizeL cs
  termination_by structural cs => cs

end

/-- One unfolding step of `parseNode` at positive fuel. -/
theorem parseNode_succ (tbl : SymbolTables) (f : Nat) (l : List Char) :
    parseNode tbl (f + 1) l =
      (if (l.takeWhile Char.isAlphanum).isEmpty then .error .UnexpectedToken
      else match lookupShort tbl.types (String.mk (l.takeWhile Char.isAlphanum)) with
        | none => .error .UnknownShortCode
        | some long =>
          match l.drop (l.takeWhile Char.isAlphanum).length with
          | c :: r2 =>
            if c = obr then
              match parseProps tbl f r2 with
              | .ok (ps, r3) =>
                (match r3 with
                 | c2 :: r4 =>
                   if c2 = '[' then
                     match parseKids tbl f r4 with
                     | .ok (cs, r5) => .ok (.mk long ps cs, r5)
                     | .error e => .error e
                   else .ok (.mk long ps .nil, c2 :: r4)
                 | [] => .ok (.mk long ps .nil, []))
              | .error e => .error e
            else if c = '[' then
              match parseKids tbl f r2 with
              | .ok (cs, r5) => .ok (.mk long [] cs, r5)
              | .error e => .error e
            else .ok (.mk long [] .nil, c :: r2)
          | [] => .ok (.mk long [] .nil, [])) := rfl

/-- One unfolding step of `parseKids` at positive fuel. -/
theorem parseKids_succ (tbl : SymbolTables) (f : Nat) (l : List Char) :
    parseKids tbl (f + 1) l =
      (match l with
      | [] => .error .UnbalancedBracket
      | c :: r =>
        if c = ']' then .ok (.nil, r)
        else
          match parseNode tbl f (c :: r) with
          | .ok (child, r2) =>
            match r2 with
            | [] => .error .UnbalancedBracket
            | c2 :: r3 =>
              if c2 = ',' then
                match parseKids tbl f r3 with
                | .ok (cs, r4) => .ok (.cons child cs, r4)
                | .error e => .error e
              else if c2 = ']' then .ok (.cons child .nil, r3)
              else .error .UnexpectedToken
          | .error e => .error e) := rfl

/-- One unfolding step of `parseKids` at positive fuel on a cons cell. -/
theorem parseKids_succ_cons (tbl : SymbolTables) (f : Nat) (c : Char) (r : List Char) :
    parseKids tbl (f + 1) (c :: r) =
      (if c = ']' then .ok (.nil, r)
      else
        match parseNode tbl f (c :: r) with
        | .ok (child, r2) =>
          match r2 with
          | [] => .error .UnbalancedBracket
          | c2 :: r3 =>
            if c2 = ',' then
              match parseKids tbl f r3 with
              | .ok (cs, r4) => .ok (.cons child cs, r4)
              | .error e => .error e
            else if c2 = ']' then .ok (.cons child .nil, r3)
            else .error .UnexpectedToken
        | .error e => .error e) := rfl

/-- The well-formed type reference of a node resolves both ways through the
Type category: its short form is a token and looks back up to the type. -/
theorem typeTok_spec {tbl : SymbolTables} (hw : wfTables tbl = true)
    {ty s : String} (hty : lookupLong tbl.types ty = some s) :
    s.data ≠ [] ∧ s.data.all Char.isAlphanum = true ∧
    lookupShort tbl.types s = some ty := by
  have hmem := lookupLong_mem hty
  have htok := tokOk_of_mem (wfTables_parts hw).1 hmem
  obtain ⟨h1, h2⟩ := tokOk_parts htok
  exact ⟨h1, h2, lookupShort_of_lookupLong (tableOk_parts (wfTables_parts hw).1).2.1 hty⟩

/-- The encoding of a well-formed node starts with an alphanumeric
character. -/
theorem encW_head {tbl : SymbolTables} (hw : wfTables tbl = true)
    {t : WidgetNode} (hwf : wfNode tbl t = true) :
    ∃ hc htl, encW tbl t = hc :: htl ∧ hc.isAlphanum = true := by
  cases t with
  | mk ty ps cs =>
    rw [wfNode, Bool.and_eq_true, Bool.and_eq_true] at hwf
    obtain ⟨⟨hty, _⟩, _⟩ := hwf
    rw [Option.isSome_iff_exists] at hty
    obtain ⟨s, hty⟩ := hty
    obtain ⟨hne, hal, _⟩ := typeTok_spec hw hty
    have htt : encTypeTok tbl ty = s.data := by
      unfold encTypeTok
      rw [hty]
    cases hs : s.data with
    | nil => exact absurd hs hne
    | cons c0 ctl =>
      have hc0 : c0.isAlphanum = true := by
        rw [hs, List.all_cons, Bool.and_eq_true] at hal
        exact hal.1
      cases cs with
      | nil =>
        refine ⟨c0, ctl ++ (obr :: (encPropsBody tbl ps ++ [cbr])), ?_, hc0⟩
        rw [show encW tbl (.mk ty ps .nil) =
          encTypeTok tbl ty ++ (obr :: (encPropsBody tbl ps ++ [cbr])) from rfl, htt, hs]
        rfl
      | cons ck cks =>
        refine ⟨c0, ctl ++ (obr :: (encPropsBody tbl ps ++ (cbr ::
          ('[' :: (encKids tbl (.cons ck cks) ++ [']']))))), ?_, hc0⟩
        rw [show encW tbl (.mk ty ps (.cons ck cks)) =
          encTypeTok tbl ty ++ (obr :: (encPropsBody tbl ps ++ (cbr ::
            ('[' :: (encKids tbl (.cons ck cks) ++ [']']))))) from rfl, htt, hs]
        rfl

/-- Round-trip of the node and child-list parsers against the renderer, by
strong induction on tree size: parsing a rendered well-formed tree followed
by a separator-headed tail returns the tree and the tail. -/
theorem nodeKidsRT (n : Nat) :
    (∀ (tbl : SymbolTables) (t : WidgetNode), wfTables tbl = true → wfNode tbl t = true →
      sizeW t ≤ n → ∀ (fuel : Nat) (rest : List Char), (encW tbl t).length < fuel →
      (rest = [] ∨ (∃ r2, rest = ',' :: r2) ∨ (∃ r2, rest = ']' :: r2)) →
      parseNode tbl fuel (encW tbl t ++ rest) = .ok (t, rest)) ∧
    (∀ (tbl : SymbolTables) (cs : WidgetList), wfTables tbl = true → wfKids tbl cs = true →
      sizeL cs ≤ n → ∀ (fuel : Nat) (rest : List Char),
      (encKids tbl cs).length + 1 < fuel →
      parseKids tbl fuel (encKids tbl cs ++ (']' :: rest)) = .ok (cs, rest)) := by
  induction n using Nat.strong_induction_on with
  | _ n IH =>
    have hNode : ∀ (tbl : SymbolTables) (t : WidgetNode), wfTables tbl = true →
        wfNode tbl t = true → sizeW t ≤ n →
        ∀ (fuel : Nat) (rest : List Char), (encW tbl t).length < fuel →
        (rest = [] ∨ (∃ r2, rest = ',' :: r2) ∨ (∃ r2, rest = ']' :: r2)) →
        parseNode tbl fuel (encW tbl t ++ rest) = .ok (t, rest) := by
      intro tbl t hw hwf hsz fuel rest hfuel hrest
      cases t with
      | mk ty ps cs =>
        rw [wfNode, Bool.and_eq_true, Bool.and_eq_true] at hwf
        obtain ⟨⟨hty, hall⟩, hkids⟩ := hwf
        rw [Option.isSome_iff_exists] at hty
        obtain ⟨s, hty⟩ := hty
        obtain ⟨hne, hal, hback⟩ := typeTok_spec hw hty
        have hmk : String.mk s.data = s := rfl
        have hie : s.data.isEmpty = false := by
          cases hs : s.data with
          | nil => exact absurd hs hne
          | cons a b => rfl
        cases cs with
        | nil =>
          have htt : encTypeTok tbl ty = s.data := by
            unfold encTypeTok
            rw [hty]
          have henc : encW tbl (.mk ty ps .nil) =
              s.data ++ (obr :: (encPropsBody tbl ps ++ [cbr])) := by
            rw [show encW tbl (.mk ty ps .nil) =
              encTypeTok tbl ty ++ (obr :: (encPropsBody tbl ps ++ [cbr])) from rfl, htt]
          rw [henc] at hfuel ⊢
          simp only [List.length_append, List.length_cons, List.length_nil] at hfuel
          cases fuel with
          | zero => omega
          | succ f =>
            simp only [List.append_assoc, List.cons_append, List.singleton_append,
              List.nil_append]
            have htw : (s.data ++ (obr :: (encPropsBody tbl ps ++ (cbr :: rest)))).takeWhile
                Char.isAlphanum = s.data := by
              apply takeWhile_app
              · exact List.all_eq_true.mp hal
              · intro c hc
                simp only [List.head?] at hc
                injection hc with hc2
                rw [← hc2]
                decide
            have hprops := parseProps_encBody hw ps f rest hall (by omega)
            rw [parseNode_succ]
            simp only [htw, hie, Bool.false_eq_true, if_false, hmk, hback,
              List.drop_left, hprops]
            rcases hrest with rfl | ⟨r2, rfl⟩ | ⟨r2, rfl⟩
            · rfl
            · rfl
            · rfl
        | cons c0 cs0 =>
          have htt : encTypeTok tbl ty = s.data := by
            unfold encTypeTok
            rw [hty]
          have henc : encW tbl (.mk ty ps (.cons c0 cs0)) =
              s.data ++ (obr :: (encPropsBody tbl ps ++ (cbr ::
                ('[' :: (encKids tbl (.cons c0 cs0) ++ [']']))))) := by
            rw [show encW tbl (.mk ty ps (.cons c0 cs0)) =
              encTypeTok tbl ty ++ (obr :: (encPropsBody tbl ps ++ (cbr ::
                ('[' :: (encKids tbl (.cons c0 cs0) ++ [']']))))) from rfl, htt]
          rw [henc] at hfuel ⊢
          simp only [List.length_append, List.length_cons, List.length_nil] at hfuel
          cases fuel with
          | zero => omega
          | succ f =>
            simp only [List.append_assoc, List.cons_append, List.singleton_append,
              List.nil_append]
            have htw : (s.data ++ (obr :: (encPropsBody tbl ps ++ (cbr ::
                ('[' :: (encKids tbl (.cons c0 cs0) ++ (']' :: rest))))))).takeWhile
                Char.isAlphanum = s.data := by
              apply takeWhile_app
              · exact List.all_eq_true.mp hal
              · intro c hc
                simp only [List.head?] at hc
                injection hc with hc2
                rw [← hc2]
                decide
            have hprops := parseProps_encBody hw ps f
              ('[' :: (encKids tbl (.cons c0 cs0) ++ (']' :: rest))) hall (by omega)
            have hszn : n - 1 < n := by
              rw [sizeW] at hsz
              omega
            have hkrec := (IH (n - 1) hszn).2 tbl (.cons c0 cs0) hw hkids
              (by rw [sizeW] at hsz; omega) f rest (by omega)
            rw [parseNode_succ]
            simp only [htw, hie, Bool.false_eq_true, if_false, hmk, hback,
              List.drop_left, hprops, hkrec]
            simp
    refine ⟨hNode, ?_⟩
    intro tbl cs hw hwf hsz fuel rest hfuel
    cases cs with
    | nil =>
      cases fuel with
      | zero => omega
      | succ f =>
        simp only [encKids, List.nil_append]
        rw [parseKids_succ]
        simp
    | cons c0 cs0 =>
      rw [wfKids, Bool.and_eq_true] at hwf
      obtain ⟨hwf0, hwfrest⟩ := hwf
      obtain ⟨hc, htl, hchead, hcal⟩ := encW_head hw hwf0
      cases fuel with
      | zero => omega
      | succ f =>
        have hsz0 : sizeW c0 ≤ n := by
          rw [sizeL] at hsz
          have : 0 ≤ sizeL cs0 := Nat.zero_le _
          omega
        cases cs0 with
        | nil =>
          have henck : encKids tbl (.cons c0 .nil) = encW tbl c0 := by
            rw [encKids]
          rw [henck] at hfuel ⊢
          have hrec := hNode tbl c0 hw hwf0 hsz0 f (']' :: rest) (by omega)
            (Or.inr (Or.inr ⟨rest, rfl⟩))
          rw [hchead, List.cons_append, parseKids_succ_cons]
          rw [if_neg (by
            intro he
            rw [he] at hcal
            exact absurd hcal (by decide))]
          rw [← List.cons_append, ← hchead, hrec]
          simp
        | cons c1 cs1 =>
          have henck : encKids tbl (.cons c0 (.cons c1 cs1)) =
              encW tbl c0 ++ (',' :: encKids tbl (.cons c1 cs1)) := by
            rw [encKids]
          rw [henck] at hfuel ⊢
          simp only [List.length_append, List.length_cons] at hfuel
          simp only [List.append_assoc, List.cons_append]
          have hrec := hNode tbl c0 hw hwf0 hsz0 f
            (',' :: (encKids tbl (.cons c1 cs1) ++ (']' :: rest))) (by omega)
            (Or.inr (Or.inl ⟨_, rfl⟩))
          have hszr : sizeL (.cons c1 cs1) ≤ n - 1 := by
            rw [sizeL] at hsz
            have h1 : 1 ≤ sizeW c0 := by
              cases c0 with
              | mk a b c =>
                rw [sizeW]
                omega
            omega
          have hszn : n - 1 < n := by
            have h1 : 1 ≤ sizeW c0 := by
              cases c0 with
              | mk a b c =>
                rw [sizeW]
                omega
            rw [sizeL] at hsz
            omega
          have hkrec := (IH (n - 1) hszn).2 tbl (.cons c1 cs1) hw hwfrest hszr f rest
            (by omega)
          rw [hchead, List.cons_append, parseKids_succ_cons]
          rw [if_neg (by
            intro he
            rw [he] at hcal
            exact absurd hcal (by decide))]
          rw [← List.cons_append, ← hchead, hrec]
          simp [hkrec]

/-- Modelled from the spec: §4.1 string-literal encoding as a standalone
function — quote, escaped body, quote. -/
def escapeLit (s : String) : String :=
  String.mk (encLit ⟨.str, s⟩)

/-- Modelled from the spec: §4.3 string-literal decoding as a standalone
function — a leading quote, then the escape-aware string state consuming
the entire input up to the closing quote. -/
def unescapeLit (s : String) : Option String :=
  match s.data with
  | c :: r =>
    if c = qc then
      match parseStr (r.length + 1) r with
      | .ok (content, []) => some (String.mk content)
      | _ => none
    else none
  | [] => none

/-- The scenario widget tree of §8:
`WidgetNode{type=Scaffold, children=[WidgetNode{type=Text, properties=[(data,"Hi")]}]}`. -/
def scenarioTree : WidgetNode :=
  .mk "Scaffold" [] (.cons (.mk "Text" [("data", ⟨.str, "Hi"⟩)] .nil) .nil)

/-- Decoding inverts encoding on well-formed trees over well-formed tables. -/
theorem decode_encode {tbl : SymbolTables} {t : WidgetNode}
    (hw : wfTables tbl = true) (hwf : wfNode tbl t = true) :
    decode tbl (encode tbl t) = .ok t := by
  have hdata : (encode tbl t).data = encW tbl t := rfl
  have h := (nodeKidsRT (sizeW t)).1 tbl t hw hwf (Nat.le_refl _)
    ((encW tbl t).length + 1) [] (by omega) (Or.inl rfl)
  rw [List.append_nil] at h
  unfold decode
  rw [hdata, h]

set_option maxRecDepth 100000

/-! ## Claim theorems -/

/-- C1 (counterexample): the in-repo compressor `compressDart` is not
injective — the semantically different sources `Text("true")` and
`Text("1")` compress to the same document, because the keyword pass
rewrites `true` inside the string literal; hence no decoder composed with
`compressDart` can recover a semantically equivalent source for both. -/
theorem claimC1_counterexample :
    (compressDart "Text(\"true\")").compressedCode =
      (compressDart "Text(\"1\")").compressedCode ∧
    ("Text(\"true\")" : String) ≠ "Text(\"1\")" := by
  constructor
  · decide
  · decide

/-- C1 (amended): round-trip identity holds for the spec-modelled codec —
for every well-formed symbol table and every §3-well-formed widget tree,
decoding the minimal-strategy encoding returns a structurally identical
tree (order of properties and children preserved by construction). -/
theorem claimC1_roundtrip : ∀ (tbl : SymbolTables) (t : WidgetNode),
    wfTables tbl = true → wfNode tbl t = true →
    decode tbl (encode tbl t) = .ok t :=
  fun _ _ hw hwf => decode_encode hw hwf

/-- C1 (witness): the §8 scenario — the scenario tree encodes to
`S{}[T{data:"Hi"}]` under the table `Scaffold→S, Text→T` and decodes back
to the identical tree. -/
theorem claimC1_witness :
    wfTables scenarioTables = true ∧ wfNode scenarioTables scenarioTree = true ∧
    encode scenarioTables scenarioTree = "S\x7b\x7d[T\x7bdata:\"Hi\"\x7d]" ∧
    decode scenarioTables (encode scenarioTables scenarioTree) = .ok scenarioTree :=
  ⟨by decide, by decide, rfl,
   claimC1_roundtrip scenarioTables scenarioTree (by decide) (by decide)⟩

/-- C2 (counterexample): the in-repo `compressDart` alters characters
inside string-literal content and is not injective on it — the distinct
sources `Text("a , b")` and `Text("a,b")` compress identically because the
whitespace collapse around `,` applies inside the literal. -/
theorem claimC2_counterexample :
    (compressDart "Text(\"a , b\")").compressedCode =
      (compressDart "Text(\"a,b\")").compressedCode ∧
    ("Text(\"a , b\")" : String) ≠ "Text(\"a,b\")" := by
  constructor
  · decide
  · decide

/-- C2 (amended): escaping correctness holds for the spec-modelled literal
codec — decoding the encoded string literal yields exactly the raw string
(for every raw string, in particular those containing reserved grammar
characters), and the literal encoding is injective. -/
theorem claimC2_escaping :
    (∀ s : String, unescapeLit (escapeLit s) = some s) ∧
    (∀ s1 s2 : String, escapeLit s1 = escapeLit s2 → s1 = s2) := by
  have hrt : ∀ s : String, unescapeLit (escapeLit s) = some s := by
    intro s
    show (if qc = qc then
        (match parseStr ((escBody s.data ++ [qc]).length + 1) (escBody s.data ++ [qc]) with
         | .ok (content, []) => some (String.mk content)
         | _ => none)
      else none) = some s
    rw [if_pos rfl]
    rw [parseStr_escBody s.data ((escBody s.data ++ [qc]).length + 1) [] (by
      simp only [List.length_append, List.length_cons, List.length_nil]
      omega)]
  refine ⟨hrt, ?_⟩
  intro s1 s2 he
  have h1 := hrt s1
  rw [he, hrt s2] at h1
  injection h1 with hh
  exact hh.symm

/-- C2 (witness): a raw string containing a brace, a comma, a semicolon, a
quote and a backslash round-trips through the literal codec; the
injectivity component applied at a concrete input. -/
theorem claimC2_witness :
    unescapeLit (escapeLit "a\x7b,;\"b") = some "a\x7b,;\"b" ∧
    ("x" : String) = "x" :=
  ⟨claimC2_escaping.1 "a\x7b,;\"b", claimC2_escaping.2 "x" "x" rfl⟩

/-- C3 (counterexample): the in-repo `compressDart` substitutes by blind
text replacement over rendered text — the keyword `true` inside the string
literal of `Text("true")` is rewritten to `1`. -/
theorem claimC3_counterexample :
    (compressDart "Text(\"true\")").compressedCode = "T(\"1\")" := by decide

/-- C3 (amended): the spec-modelled encoder substitutes on typed IR fields
only — the type position is rewritten through the Type category alone, a
property key not registered in the Property category is left as written
even if the same name is a registered type, and string-literal content is
never substituted, only escaped. -/
theorem claimC3_typed_substitution : ∀ (tbl : SymbolTables) (ty k s tyS : String),
    lookupLong tbl.types ty = some tyS →
    lookupLong tbl.props k = none →
    encW tbl (.mk ty [(k, ⟨.str, s⟩)] .nil) =
      tyS.data ++ (obr :: ((k.data ++ (':' :: (qc :: (escBody s.data ++ [qc])))) ++ [cbr])) := by
  intro tbl ty k s tyS hty hk
  have h1 : encTypeTok tbl ty = tyS.data := by
    unfold encTypeTok
    rw [hty]
  have h2 : encKey tbl k = k.data := by
    unfold encKey
    rw [hk]
  rw [show encW tbl (.mk ty [(k, ⟨.str, s⟩)] .nil) =
    encTypeTok tbl ty ++ (obr :: (encPropsBody tbl [(k, ⟨.str, s⟩)] ++ [cbr])) from rfl]
  rw [show encPropsBody tbl [(k, ⟨.str, s⟩)] =
    encKey tbl k ++ (':' :: encLit ⟨.str, s⟩) from rfl]
  rw [show encLit ⟨.str, s⟩ = qc :: (escBody s.data ++ [qc]) from rfl]
  rw [h1, h2]

/-- C3 (witness): with `Scaffold→S` registered only as a type, the name
`Scaffold` is abbreviated in type position but kept verbatim as a property
key and inside a string literal of the same node. -/
theorem claimC3_witness :
    lookupLong scenarioTables.types "Scaffold" = some "S" ∧
    lookupLong scenarioTables.props "Scaffold" = none ∧
    encW scenarioTables (.mk "Scaffold" [("Scaffold", ⟨.str, "Scaffold"⟩)] .nil) =
      "S".data ++ (obr :: (("Scaffold".data ++
        (':' :: (qc :: (escBody "Scaffold".data ++ [qc])))) ++ [cbr])) :=
  ⟨by decide, by decide,
   claimC3_typed_substitution scenarioTables "Scaffold" "Scaffold" "Scaffold" "S"
     (by decide) (by decide)⟩

/-- C4 (counterexample): the shipped tables violate the claimed invariant —
in `DART_WIDGETS` the short form `S` is a case-sensitive proper prefix of
the short form `St` of the same category, and in `WIDGET_ABBREVIATIONS`
the two distinct short codes `Z` and `Sz` both map to the long form
`SizedBox`, so long→short is not a function there; no load-time check
rejects either table. -/
theorem claimC4_counterexample :
    ("Scaffold", "S") ∈ DART_WIDGETS ∧ ("Stack", "St") ∈ DART_WIDGETS ∧
    List.isPrefixOf "S".data "St".data = true ∧ ("S" : String) ≠ "St" ∧
    ("Z", "SizedBox") ∈ WIDGET_ABBREVIATIONS ∧
    ("Sz", "SizedBox") ∈ WIDGET_ABBREVIATIONS ∧
    ("Z" : String) ≠ "Sz" := by decide

/-- C4 (amended): what does hold of every shipped table — within each
category no two entries share a short form (the long→short mapping is
injective), and no two entries share a long form. -/
theorem claimC4_injectivity :
    allDistinct (DART_WIDGETS.map (fun p => p.2)) = true ∧
    allDistinct (DART_PROPERTIES.map (fun p => p.2)) = true ∧
    allDistinct (DART_KEYWORDS.map (fun p => p.2)) = true ∧
    allDistinct (REACT_HOOKS.map (fun p => p.2)) = true ∧
    allDistinct (JSX_ELEMENTS.map (fun p => p.2)) = true ∧
    allDistinct (REACT_COMPONENTS.map (fun p => p.2)) = true ∧
    allDistinct (REACT_PROPERTIES.map (fun p => p.2)) = true ∧
    allDistinct (JS_KEYWORDS.map (fun p => p.2)) = true ∧
    allDistinct (WIDGET_ABBREVIATIONS.map (fun p => p.1)) = true ∧
    allDistinct (DART_WIDGETS.map (fun p => p.1)) = true ∧
    allDistinct (DART_PROPERTIES.map (fun p => p.1)) = true ∧
    allDistinct (DART_KEYWORDS.map (fun p => p.1)) = true ∧
    allDistinct (REACT_HOOKS.map (fun p => p.1)) = true ∧
    allDistinct (JSX_ELEMENTS.map (fun p => p.1)) = true ∧
    allDistinct (REACT_COMPONENTS.map (fun p => p.1)) = true ∧
    allDistinct (REACT_PROPERTIES.map (fun p => p.1)) = true ∧
    allDistinct (JS_KEYWORDS.map (fun p => p.1)) = true := by decide

/-- C5: decoding the unbalanced document `S{b` returns a `ParseError` of
kind `UnbalancedBracket` (never a partial tree — the decoder returns a sum
by construction); and every document accepted by the in-repo syntax check
`isValidCoonSyntax` has balanced braces and brackets with no prefix closing
more than it opened. -/
theorem claimC5_unbalanced :
    decode scenarioTables "S\x7bb" = .error .UnbalancedBracket ∧
    ∀ (code : String), isValidCoonSyntax code = true →
      ((jsTrim code.data).count obr = (jsTrim code.data).count cbr ∧
       (jsTrim code.data).count '[' = (jsTrim code.data).count ']') ∧
      (∀ p s, jsTrim code.data = p ++ s →
        p.count cbr ≤ p.count obr ∧ p.count ']' ≤ p.count '[') := by
  constructor
  · rfl
  · intro code h
    obtain ⟨⟨ht1, ht2⟩, hpre⟩ := scanBal_sound (jsTrim code.data) 0 0
      (Int.le_refl 0) (Int.le_refl 0) (isValid_scanBal h)
    refine ⟨⟨?_, ?_⟩, ?_⟩
    · omega
    · omega
    · intro p s hp
      have h2 := hpre p s hp
      obtain ⟨h3, h4⟩ := h2
      constructor
      · omega
      · omega

/-- C5 (witness): the checker accepts `S{}[T]`, whose braces and brackets
are balanced, and whose prefix `S{` closes no more than it opened. -/
theorem claimC5_witness :
    isValidCoonSyntax "S\x7b\x7d[T]" = true ∧
    ((jsTrim "S\x7b\x7d[T]".data).count obr = (jsTrim "S\x7b\x7d[T]".data).count cbr ∧
     (jsTrim "S\x7b\x7d[T]".data).count '[' = (jsTrim "S\x7b\x7d[T]".data).count ']') ∧
    ("S\x7b".data.count cbr ≤ "S\x7b".data.count obr ∧
     "S\x7b".data.count ']' ≤ "S\x7b".data.count '[') := by
  refine ⟨by decide, ?_, ?_⟩
  · exact (claimC5_unbalanced.2 "S\x7b\x7d[T]" (by decide)).1
  · exact (claimC5_unbalanced.2 "S\x7b\x7d[T]" (by decide)).2
      "S\x7b".data "\x7d[T]".data (by decide)

/-- C6: for every symbol table in which `Q` is not a registered type short
code, decoding `Q{}` returns a `ParseError` of kind `UnknownShortCode` —
the document is neither accepted nor silently dropped. -/
theorem claimC6_unknown_code : ∀ (tbl : SymbolTables),
    lookupShort tbl.types "Q" = none →
    decode tbl "Q\x7b\x7d" = .error .UnknownShortCode := by
  intro tbl h
  have hq : ("Q\x7b\x7d" : String).data = 'Q' :: obr :: cbr :: [] := rfl
  unfold decode
  rw [hq]
  rw [show ('Q' :: obr :: cbr :: ([] : List Char)).length + 1 = 3 + 1 from rfl]
  rw [parseNode_succ]
  rw [show ('Q' :: obr :: cbr :: ([] : List Char)).takeWhile Char.isAlphanum =
    ['Q'] from rfl]
  rw [show String.mk ['Q'] = "Q" from rfl]
  rw [h]
  simp

/-- C6 (witness): under the §8 scenario table (`Scaffold→S, Text→T`), the
short code `Q` is unregistered and `Q{}` is rejected with
`UnknownShortCode`. -/
theorem claimC6_witness :
    lookupShort scenarioTables.types "Q" = none ∧
    decode scenarioTables "Q\x7b\x7d" = .error .UnknownShortCode :=
  ⟨by decide, claimC6_unknown_code scenarioTables (by decide)⟩

/-- C7: evaluating the in-repo `compressDart` at the failing inputs — the
empty string yields the empty compressed document without an error, but the
reported saving is the JS `NaN` (0/0, modelled `none`), not zero; a
whitespace-only input yields the empty document with a reported saving of
100, not zero. The repository's own tests expect zero for both. -/
theorem claimC7_empty_input :
    (compressDart "").compressedCode = "" ∧
    (compressDart "").originalTokens = 0 ∧
    (compressDart "").compressedTokens = 0 ∧
    (compressDart "").percentageSaved = none ∧
    (compressDart "   \n\t  ").compressedCode = "" ∧
    (compressDart "   \n\t  ").percentageSaved = some 100 := by
  refine ⟨rfl, rfl, rfl, rfl, rfl, ?_⟩
  have h : (compressDart "   \n\t  ").percentageSaved = jsPercentMax0 2 0 := rfl
  rw [h]
  unfold jsPercentMax0 jsMax0
  norm_num

/-- C8: purity and determinism of the compression entry point across the
module-level compressor cache — for any pure SDK compress function, the
output of `compressToCoon` on a given input is the same in every reachable
cache state, regardless of prior invocations. -/
theorem claimC8_purity : ∀ (f : Compressor → String → String) (code : String)
    (s1 s2 : Option Compressor),
    ReachableCache s1 → ReachableCache s2 →
    (compressToCoon f s1 code).1 = (compressToCoon f s2 code).1 := by
  intro f code s1 s2 h1 h2
  rcases reachableCache_inv h1 with e1 | e1 <;> rcases reachableCache_inv h2 with e2 | e2 <;>
    subst e1 <;> subst e2 <;> rfl

/-- C8 (witness): the fresh cache and the cache after a first
`getCompressor` call are both reachable and give the same output. -/
theorem claimC8_witness :
    ReachableCache (none : Option Compressor) ∧
    ReachableCache (some defaultCompressor) ∧
    (compressToCoon (fun _ s => s) none "x").1 =
      (compressToCoon (fun _ s => s) (some defaultCompressor) "x").1 :=
  ⟨ReachableCache.init, ReachableCache.get none ReachableCache.init,
   claimC8_purity (fun _ s => s) "x" none (some defaultCompressor)
     ReachableCache.init (ReachableCache.get none ReachableCache.init)⟩

/-- C9: every long form appearing as a value of `WIDGET_ABBREVIATIONS` is
in the domain of `REVERSE_WIDGET_MAP`, and mapping its reverse image
forward again returns the long form — even though the two short codes `Z`
and `Sz` both map to `SizedBox` (the `Object.fromEntries` construction
keeps the later entry, `Sz`). -/
theorem claimC9_reverse_roundtrip :
    WIDGET_ABBREVIATIONS.all widgetRoundOk = true ∧
    objLookup WIDGET_ABBREVIATIONS "Z" = some "SizedBox" ∧
    objLookup WIDGET_ABBREVIATIONS "Sz" = some "SizedBox" ∧
    objLookup REVERSE_WIDGET_MAP "SizedBox" = some "Sz" := by decide

/-- C10: for every input string, the compressed document returned by
`compressDart` contains no newline character — the final
`replace(/\n/g, "")` pass removes every newline, including those that came
from string-literal content. -/
theorem claimC10_no_newline : ∀ (code : String),
    Char.ofNat 10 ∉ ((compressDart code).compressedCode).data := by
  intro code hmem
  simp only [compressDart, compressDartPipeline] at hmem
  rw [List.mem_filter] at hmem
  have h2 := hmem.2
  simp at h2

end COON
